import Mathlib

/-!
Verification of the issue-remediation pipeline's core logic: the JSON
extraction functions of `src/claude_runner.py`, the retry loop of
`run_claude`, the agent execution contract of `src/agents/base.py`, the
triage / research / review stage logic, and the `AgentState` serialization
of `src/models.py`.  Text is modelled as `List Char`; Python floats are
modelled as rationals; Python `dict`s as ordered association lists with
Python `dict` update semantics; Python exceptions as `Except` errors.
-/

set_option maxHeartbeats 1000000
set_option linter.unusedVariables false

/-- JSON values as produced by Python's `json.loads`: `None`, `bool`,
numbers (ints and floats merged into one rational-valued constructor),
`str`, `list`, and `dict` (an ordered association list with unique keys,
insertion-ordered, as Python dicts are). -/
inductive Json where
  | null : Json
  | bool (b : Bool) : Json
  | num (q : ℚ) : Json
  | str (s : List Char) : Json
  | arr (xs : List Json) : Json
  | obj (fields : List (List Char × Json)) : Json

/-- Python `dict.get(k, default)` on an association list (first match). -/
def dGet (fs : List (List Char × Json)) (k : List Char) (d : Json) : Json :=
  (fs.lookup k).getD d

/-- Python `d[k] = v`: if the key exists, the value is updated in place
(the key keeps its original position); otherwise the pair is appended. -/
def pyInsert (fs : List (List Char × Json)) (k : List Char) (v : Json) :
    List (List Char × Json) :=
  match fs with
  | [] => [(k, v)]
  | (k₀, v₀) :: r => if k₀ = k then (k₀, v) :: r else (k₀, v₀) :: pyInsert r k v

/-- JSON whitespace, as accepted between tokens by Python's `json` module. -/
def isJsonWs (c : Char) : Bool :=
  c = ' ' || c = '\t' || c = '\n' || c = '\r'

/-- Whitespace stripped by Python's `str.strip()` (ASCII whitespace). -/
def isPyWs (c : Char) : Bool :=
  c = ' ' || c = '\t' || c = '\n' || c = '\r' || c = '\x0b' || c = '\x0c'

/-- Python `str.strip()` (both ends; trailing side first). -/
def pyStrip (t : List Char) : List Char :=
  ((t.reverse.dropWhile isPyWs).reverse).dropWhile isPyWs

/-- Python `str.split("\n")`. -/
def splitLinesPy (t : List Char) : List (List Char) :=
  match t with
  | [] => [[]]
  | c :: r =>
      if c = '\n' then [] :: splitLinesPy r
      else
        match splitLinesPy r with
        | [] => [[c]]
        | h :: rest => (c :: h) :: rest

/-- Work loop of Python `str.replace(sub, rep)` for a nonempty `sub`:
left-to-right, non-overlapping.  Every step consumes at least one
character, so `t.length + 1` fuel is never exhausted. -/
def pyReplaceGo (sub rep : List Char) : Nat → List Char → List Char
  | 0, t => t
  | fuel + 1, t =>
      if sub.isPrefixOf t then rep ++ pyReplaceGo sub rep fuel (t.drop sub.length)
      else
        match t with
        | [] => []
        | c :: r => c :: pyReplaceGo sub rep fuel r

/-- Python `str.replace(sub, rep)` for a nonempty `sub`. -/
def pyReplace (t sub rep : List Char) : List Char :=
  pyReplaceGo sub rep (t.length + 1) t

/-- Skip JSON whitespace. -/
def skipWs (t : List Char) : List Char := t.dropWhile isJsonWs

/-- Hex digit value. -/
def hexVal (c : Char) : Option Nat :=
  if '0' ≤ c ∧ c ≤ '9' then some (c.toNat - '0'.toNat)
  else if 'a' ≤ c ∧ c ≤ 'f' then some (c.toNat - 'a'.toNat + 10)
  else if 'A' ≤ c ∧ c ≤ 'F' then some (c.toNat - 'A'.toNat + 10)
  else none

/-- Parse exactly four hex digits. -/
def parseHex4 (t : List Char) : Option (Nat × List Char) :=
  match t with
  | a :: b :: c :: d :: r =>
      match hexVal a, hexVal b, hexVal c, hexVal d with
      | some va, some vb, some vc, some vd =>
          some (((va * 16 + vb) * 16 + vc) * 16 + vd, r)
      | _, _, _, _ => none
  | _ => none

/-- Body of a JSON string after the opening quote: returns the decoded
content and the input after the closing quote.  Mirrors Python `json`'s
strict mode: raw control characters below `0x20` are rejected; escapes are
`\" \\ \/ \b \f \n \r \t \uXXXX`; a valid `\uXXXX\uXXXX` surrogate pair is
combined (a lone surrogate, which Lean's `Char` cannot hold, decodes to the
null character). -/
def parseJString (fuel : Nat) (t : List Char) : Option (List Char × List Char) :=
  match fuel with
  | 0 => none
  | fuel + 1 =>
    match t with
    | [] => none
    | '"' :: r => some ([], r)
    | '\\' :: e :: r =>
        let cont (c : Char) (rest : List Char) : Option (List Char × List Char) :=
          match parseJString fuel rest with
          | some (cs, rest₂) => some (c :: cs, rest₂)
          | none => none
        match e with
        | '"' => cont '"' r
        | '\\' => cont '\\' r
        | '/' => cont '/' r
        | 'b' => cont '\x08' r
        | 'f' => cont '\x0c' r
        | 'n' => cont '\n' r
        | 'r' => cont '\r' r
        | 't' => cont '\t' r
        | 'u' =>
            match parseHex4 r with
            | none => none
            | some (n, r₂) =>
                if 0xD800 ≤ n ∧ n ≤ 0xDBFF then
                  match r₂ with
                  | '\\' :: 'u' :: r₃ =>
                      match parseHex4 r₃ with
                      | some (m, r₄) =>
                          if 0xDC00 ≤ m ∧ m ≤ 0xDFFF then
                            cont (Char.ofNat (0x10000 + (n - 0xD800) * 0x400 + (m - 0xDC00))) r₄
                          else cont (Char.ofNat n) r₂
                      | none => cont (Char.ofNat n) r₂
                  | _ => cont (Char.ofNat n) r₂
                else cont (Char.ofNat n) r
        | _ => none
    | c :: r => if c.toNat < 0x20 then none else
        match parseJString fuel r with
        | some (cs, rest₂) => some (c :: cs, rest₂)
        | none => none

/-- One or more decimal digits, returned as a list plus the rest. -/
def takeDigits (t : List Char) : List Char × List Char :=
  match t with
  | c :: r =>
      if '0' ≤ c ∧ c ≤ '9' then
        let (ds, rest) := takeDigits r
        (c :: ds, rest)
      else ([], t)
  | [] => ([], [])

/-- Numeric value of a digit list. -/
def digitsVal (ds : List Char) : Nat :=
  ds.foldl (fun a c => a * 10 + (c.toNat - '0'.toNat)) 0

/-- Parse a JSON number following the grammar of Python `json`'s NUMBER_RE:
`-?(0|[1-9][0-9]*)(\.[0-9]+)?([eE][+-]?[0-9]+)?`, maximal match.  Returns
the rational value and the rest of the input. -/
def parseNumber (t : List Char) : Option (ℚ × List Char) :=
  let (neg, t₁) :=
    match t with
    | '-' :: r => (true, r)
    | _ => (false, t)
  match t₁ with
  | c :: _ =>
      if ¬('0' ≤ c ∧ c ≤ '9') then none
      else
        let (intDs, t₂) :=
          if c = '0' then ([c], t₁.drop 1)
          else takeDigits t₁
        let (fracDs, t₃) :=
          match t₂ with
          | '.' :: r =>
              match takeDigits r with
              | ([], _) => ([], t₂)
              | (ds, rest) => (ds, rest)
          | _ => ([], t₂)
        let (expSign, expDs, t₄) :=
          match t₃ with
          | e :: r =>
              if e = 'e' ∨ e = 'E' then
                let (sgn, r₂) :=
                  match r with
                  | '+' :: r₃ => (1, r₃)
                  | '-' :: r₃ => (-1, r₃)
                  | _ => ((1 : Int), r)
                match takeDigits r₂ with
                | ([], _) => ((1 : Int), ([] : List Char), t₃)
                | (ds, rest) => (sgn, ds, rest)
              else ((1 : Int), ([] : List Char), t₃)
          | [] => ((1 : Int), ([] : List Char), t₃)
        let M : Int :=
          ((digitsVal intDs * 10 ^ fracDs.length + digitsVal fracDs : Nat) : Int)
        let Ms : Int := if neg then -M else M
        let E : Int := expSign * (digitsVal expDs : Int) - (fracDs.length : Int)
        let mag : ℚ :=
          if 0 ≤ E then mkRat (Ms * 10 ^ E.toNat) 1 else mkRat Ms (10 ^ (-E).toNat)
        some (mag, t₄)
  | [] => none


/-- Parsing modes of the recursive-descent scanner of Python's `json`
module (`scan_once`): a value, the inside of an object after `\x7b`, the
members of an object after an opened key quote, the inside of an array
after `[`, and array elements, with accumulators for the parsed members or
elements (duplicate object keys update in place, as in a Python dict). -/
inductive PMode where
  | val : PMode
  | objRest : PMode
  | members : List (List Char × Json) → PMode
  | arrRest : PMode
  | elements : List Json → PMode

/-- Recursive-descent JSON scanner mirroring Python `json`'s `scan_once`:
the value must begin at the very first character (no leading whitespace).
Returns the value and the unconsumed rest.  The `NaN` / `Infinity`
extensions (floats with no rational counterpart) are not modelled.  Every
recursive call consumes at least one character, so `length + 1` fuel is
never exhausted. -/
def parseF : Nat → PMode → List Char → Option (Json × List Char)
  | 0, _, _ => none
  | fuel + 1, .val, t =>
      match t with
      | '"' :: r =>
          match parseJString (r.length + 1) r with
          | some (cs, rest) => some (.str cs, rest)
          | none => none
      | '{' :: r => parseF fuel .objRest r
      | '[' :: r => parseF fuel .arrRest r
      | 'n' :: _ => if t.take 4 = "null".data then some (.null, t.drop 4) else none
      | 't' :: _ => if t.take 4 = "true".data then some (.bool true, t.drop 4) else none
      | 'f' :: _ => if t.take 5 = "false".data then some (.bool false, t.drop 5) else none
      | _ =>
          match parseNumber t with
          | some (q, rest) => some (.num q, rest)
          | none => none
  | fuel + 1, .objRest, t =>
      match skipWs t with
      | '}' :: r => some (.obj [], r)
      | '"' :: r => parseF fuel (.members []) r
      | _ => none
  | fuel + 1, .members acc, t =>
      match parseJString (t.length + 1) t with
      | none => none
      | some (key, t₁) =>
          match skipWs t₁ with
          | ':' :: t₂ =>
              match parseF fuel .val (skipWs t₂) with
              | none => none
              | some (v, t₃) =>
                  match skipWs t₃ with
                  | ',' :: t₄ =>
                      match skipWs t₄ with
                      | '"' :: t₅ => parseF fuel (.members (pyInsert acc key v)) t₅
                      | _ => none
                  | '}' :: t₄ => some (.obj (pyInsert acc key v), t₄)
                  | _ => none
          | _ => none
  | fuel + 1, .arrRest, t =>
      match skipWs t with
      | ']' :: r => some (.arr [], r)
      | t₁ => parseF fuel (.elements []) t₁
  | fuel + 1, .elements acc, t =>
      match parseF fuel .val t with
      | none => none
      | some (v, t₁) =>
          match skipWs t₁ with
          | ',' :: t₂ => parseF fuel (.elements (acc ++ [v])) (skipWs t₂)
          | ']' :: t₂ => some (.arr (acc ++ [v]), t₂)
          | _ => none

/-- One JSON value starting at the first character of `t`. -/
def parseValue (fuel : Nat) (t : List Char) : Option (Json × List Char) :=
  parseF fuel .val t

/-- Python `json.loads`: leading/trailing whitespace allowed, the full
text must be consumed. -/
def loads (t : List Char) : Option Json :=
  let t₁ := skipWs t
  match parseValue (t₁.length + 1) t₁ with
  | some (v, rest) => if skipWs rest = [] then some v else none
  | none => none

/-- Python `json.JSONDecoder().raw_decode(text, i)`: decode one value
starting exactly at index `i`; returns the value and the absolute index at
which parsing stopped. -/
def rawDecode (t : List Char) (i : Nat) : Option (Json × Nat) :=
  let s := t.drop i
  match parseValue (s.length + 1) s with
  | some (v, rest) => some (v, i + (s.length - rest.length))
  | none => none

mutual

/-- Model of `_contains_required_field`: a JSON value contains the field
at some nesting level (dicts: key present, or any value contains it;
lists: any element contains it). -/
def containsRequiredField (f : List Char) : Json → Bool
  | .obj fs => fs.any (fun kv => kv.1 == f) || pairsContain f fs
  | .arr xs => listContains f xs
  | _ => false
termination_by structural v => v

/-- The recursion of `_contains_required_field` over a dict's values. -/
def pairsContain (f : List Char) : List (List Char × Json) → Bool
  | [] => false
  | kv :: r => containsRequiredField f kv.2 || pairsContain f r
termination_by structural l => l

/-- The recursion of `_contains_required_field` over a list's elements. -/
def listContains (f : List Char) : List Json → Bool
  | [] => false
  | x :: r => containsRequiredField f x || listContains f r
termination_by structural l => l

end

/-- Whether a JSON value is a Python `dict`. -/
def Json.isObjB : Json → Bool
  | .obj _ => true
  | _ => false

/-- Model of `_try_parse_json`: parse, keep only a dict with the field. -/
def tryParseJson (t f : List Char) : Option Json :=
  match loads t with
  | some v => if v.isObjB && containsRequiredField f v then some v else none
  | none => none

/-- Does `sub` occur in `t` at position `p`? -/
def subAt (t sub : List Char) (p : Nat) : Bool :=
  sub.isPrefixOf (t.drop p)

/-- Work loop of Python `text.find(sub, start)`: the position scanned
advances by one per step, and the scan stops at `t.length`, so
`t.length + 1` fuel is never exhausted. -/
def findSubGo (t sub : List Char) : Nat → Nat → Option Nat
  | 0, _ => none
  | fuel + 1, s =>
      if s < t.length then
        if subAt t sub s then some s else findSubGo t sub fuel (s + 1)
      else none

/-- Python `text.find(sub, start)` for nonempty `sub` (as an `Option`
instead of `-1`): least `p ≥ start` with `sub` occurring at `p`. -/
def findSub (t sub : List Char) (start : Nat) : Option Nat :=
  findSubGo t sub (t.length + 1) start

theorem findSubGo_sound (t sub : List Char) :
    ∀ fuel s p, findSubGo t sub fuel s = some p →
      s ≤ p ∧ p < t.length ∧ subAt t sub p = true := by
  intro fuel
  induction fuel with
  | zero => intro s p hp; exact absurd hp (by simp [findSubGo])
  | succ n ih =>
      intro s p hp
      rw [findSubGo] at hp
      split at hp
      · rename_i h1
        split at hp
        · rename_i h2
          injection hp with hsp
          subst hsp
          exact ⟨le_refl _, h1, h2⟩
        · have := ih (s + 1) p hp
          exact ⟨by omega, this.2.1, this.2.2⟩
      · exact absurd hp (by simp)

theorem findSub_sound (t sub : List Char) (s p : Nat)
    (hp : findSub t sub s = some p) :
    s ≤ p ∧ p < t.length ∧ subAt t sub p = true :=
  findSubGo_sound t sub _ s p hp

theorem findSubGo_complete (t sub : List Char) (hsub : sub ≠ []) :
    ∀ fuel s p, p - s < fuel → s ≤ p → subAt t sub p = true →
      (∀ q, s ≤ q → q < p → subAt t sub q = false) →
      findSubGo t sub fuel s = some p := by
  have hplen : ∀ p, subAt t sub p = true → p < t.length := by
    intro p h
    by_contra hge
    have hd : t.drop p = [] := List.drop_eq_nil_of_le (by omega)
    rw [subAt, hd] at h
    cases sub with
    | nil => exact hsub rfl
    | cons a r => simp [List.isPrefixOf] at h
  intro fuel
  induction fuel with
  | zero => intro s p h; omega
  | succ n ih =>
      intro s p hfuel hsp hocc hmin
      rw [findSubGo]
      rw [if_pos (by have := hplen p hocc; omega)]
      by_cases heq : s = p
      · subst heq; rw [if_pos hocc]
      · have hlt : s < p := by omega
        rw [if_neg (by rw [hmin s (le_refl _) hlt]; simp)]
        exact ih (s + 1) p (by omega) (by omega) hocc (fun q h1 h2 => hmin q (by omega) h2)

theorem findSub_complete (t sub : List Char) (hsub : sub ≠ []) (s p : Nat)
    (hsp : s ≤ p) (hocc : subAt t sub p = true)
    (hmin : ∀ q, s ≤ q → q < p → subAt t sub q = false) :
    findSub t sub s = some p := by
  have hplen := (findSubGo_complete t sub hsub (p + 1) s p (by omega) hsp hocc hmin)
  exact findSubGo_complete t sub hsub (t.length + 1) s p
    (by have := findSubGo_sound t sub (p + 1) s p hplen; omega) hsp hocc hmin

/-- The characters after which a bare fence counts as closing in
`_extract_json_blocks` (the tuple at line 156 of `claude_runner.py`). -/
def closeWs (c : Char) : Bool :=
  c = '\n' || c = ' ' || c = '\t' || c = '\r'

/-- The opening marker scanned for by `_extract_json_blocks`. -/
def fenceJson : List Char := "```json".data

/-- A bare triple backtick. -/
def fence3 : List Char := "```".data

/-- The inner while loop of `_extract_json_blocks`: starting at `sp`, find
the closing fence; a found triple backtick immediately followed by a
non-whitespace character opens a nested block and is skipped.  Returns
`none` when no closing fence exists (the find-returned `-1` case).  The
scan position strictly increases and stays below `t.length`, so
`t.length + 1` fuel is never exhausted. -/
def scanCloseGo (t : List Char) : Nat → Nat → Option Nat
  | 0, _ => none
  | fuel + 1, sp =>
      match findSub t fence3 sp with
      | none => none
      | some c =>
          if c + 3 ≥ t.length then some c
          else if closeWs (t.getD (c + 3) ' ') then some c
          else scanCloseGo t fuel (c + 3)

/-- The closing-fence scan of `_extract_json_blocks` from position `sp`. -/
def scanClose (t : List Char) (sp : Nat) : Option Nat :=
  scanCloseGo t (t.length + 1) sp

theorem scanCloseGo_sound (t : List Char) :
    ∀ fuel sp c, scanCloseGo t fuel sp = some c →
      sp ≤ c ∧ c < t.length ∧ subAt t fence3 c = true := by
  intro fuel
  induction fuel with
  | zero => intro sp c hp; exact absurd hp (by simp [scanCloseGo])
  | succ n ih =>
      intro sp c hp
      rw [scanCloseGo] at hp
      split at hp
      · exact absurd hp (by simp)
      · rename_i c₀ hf
        have hspec := findSub_sound t fence3 sp c₀ hf
        split at hp
        · injection hp with h; subst h
          exact ⟨hspec.1, hspec.2.1, hspec.2.2⟩
        · split at hp
          · injection hp with h; subst h
            exact ⟨hspec.1, hspec.2.1, hspec.2.2⟩
          · have := ih (c₀ + 3) c hp
            exact ⟨by omega, this.2.1, this.2.2⟩

theorem scanClose_sound (t : List Char) (sp c : Nat)
    (hp : scanClose t sp = some c) :
    sp ≤ c ∧ c < t.length ∧ subAt t fence3 c = true :=
  scanCloseGo_sound t _ sp c hp

/-- Model of `_extract_json_blocks` from position `i`: scan for
` ```json ` markers; take content from after the marker's line break up to
the closing fence located by `scanClose`; when no closing fence exists the
rest of the text becomes the final block.  The position strictly increases
each iteration, so `t.length + 1` fuel is never exhausted. -/
def extractBlocksGo (t : List Char) : Nat → Nat → List (List Char)
  | 0, _ => []
  | fuel + 1, i =>
      match findSub t fenceJson i with
      | none => []
      | some s =>
          match findSub t ['\n'] s with
          | none => []
          | some nl =>
              if nl + 1 ≥ t.length then []
              else
                match scanClose t (nl + 1) with
                | none => [pyStrip (t.drop (nl + 1))]
                | some c =>
                    pyStrip ((t.drop (nl + 1)).take (c - (nl + 1))) ::
                      extractBlocksGo t fuel (c + 3)

/-- Model of `_extract_json_blocks`. -/
def extractJsonBlocks (t : List Char) : List (List Char) :=
  extractBlocksGo t (t.length + 1) 0

/-- The skip-ahead loop of `_find_json_objects`: first position at or
after `i` holding an opening bracket character. -/
def skipToBracket (t : List Char) : Nat → Nat → Option Nat
  | 0, _ => none
  | fuel + 1, i =>
      if i < t.length then
        if t.getD i ' ' = '{' ∨ t.getD i ' ' = '[' then some i
        else skipToBracket t fuel (i + 1)
      else none

/-- The scan loop of `_find_json_objects`, including the faithful
`i += end_idx` advance: `rawDecode` reports an absolute end index and the
code adds it to the current position instead of assigning it.  Every
iteration advances the position, so `t.length + 1` fuel is never
exhausted. -/
def fjoLoop (t f : List Char) : Nat → Nat → Option Json
  | 0, _ => none
  | fuel + 1, i =>
      match skipToBracket t (t.length + 1) i with
      | none => none
      | some j =>
          match rawDecode t j with
          | some (v, endIdx) =>
              if v.isObjB && containsRequiredField f v then some v
              else fjoLoop t f fuel (j + endIdx)
          | none => fjoLoop t f fuel (j + 1)

/-- Model of `_find_json_objects`. -/
def findJsonObjects (t f : List Char) : Option Json :=
  fjoLoop t f (t.length + 1) 0

/-- The escape normalization applied to the raw output before the fallback
extraction: `.replace("\\n", "\n").replace("\\\"", "\"").replace("\\\\", "\\")`
in sequence. -/
def replaceEscapes (t : List Char) : List Char :=
  pyReplace (pyReplace (pyReplace t "\\n".data "\n".data)
    "\\\"".data "\"".data) "\\\\".data "\\".data

/-- The inner loop over a `content` list in `extract_json_from_output`:
collect the `text` values of items tagged `text`.  A non-dict item would
raise `AttributeError` at `item.get`, modelled as an error. -/
def contentTexts : List Json → Except Unit (List Json)
  | [] => .ok []
  | item :: rest =>
      match item with
      | .obj fs =>
          match fs.lookup "type".data with
          | some (.str s) =>
              if s = "text".data then
                match contentTexts rest with
                | .ok l => .ok (dGet fs "text".data (.str []) :: l)
                | .error e => .error e
              else contentTexts rest
          | _ => contentTexts rest
      | _ => .error ()

/-- The text segments contributed by one parsed stream line.  Non-dict
receivers of `.get` raise `AttributeError`; iterating a non-empty dict
yields keys whose `.get` raises; iterating a number raises `TypeError` —
all modelled as errors.  Empty dicts and strings iterate zero times. -/
def lineTexts (msg : Json) : Except Unit (List Json) :=
  match msg with
  | .obj fs =>
      match fs.lookup "type".data with
      | some (.str s) =>
          if s = "assistant".data then
            match dGet fs "message".data (.obj []) with
            | .obj mf =>
                match dGet mf "content".data (.arr []) with
                | .arr items => contentTexts items
                | .obj [] => .ok []
                | .str [] => .ok []
                | _ => .error ()
            | _ => .error ()
          else .ok []
      | _ => .ok []
  | _ => .error ()

/-- The line loop of `extract_json_from_output`: parse each line of the
output as a stream event and collect assistant text segments in emission
order; blank and unparseable lines are skipped. -/
def collectTextsGo : List (List Char) → Except Unit (List Json)
  | [] => .ok []
  | line :: rest =>
      if pyStrip line = [] then collectTextsGo rest
      else
        match loads line with
        | none => collectTextsGo rest
        | some msg =>
            match lineTexts msg with
            | .error e => .error e
            | .ok ts =>
                match collectTextsGo rest with
                | .error e => .error e
                | .ok ts₂ => .ok (ts ++ ts₂)

/-- All assistant text segments of the raw output, in emission order. -/
def collectTexts (output : List Char) : Except Unit (List Json) :=
  collectTextsGo (splitLinesPy output)

/-- The per-text-segment search of `extract_json_from_output`, applied to
the collected segments newest-first: fenced blocks newest-first, then the
raw object scan.  A non-string segment would raise at `text.find`. -/
def textsLoop (f : List Char) : List Json → Except Unit (Option Json)
  | [] => .ok none
  | t :: rest =>
      match t with
      | .str s =>
          match (extractJsonBlocks s).reverse.findSome? (fun b => tryParseJson b f) with
          | some r => .ok (some r)
          | none =>
              match findJsonObjects s f with
              | some r => .ok (some r)
              | none => textsLoop f rest
      | _ => .error ()

/-- Model of `extract_json_from_output`: stream parsing, per-segment
search newest-first, then the raw-text fallback with escape normalization,
then the raw object scan.  `.ok none` is the "not found" return. -/
def extractJsonFromOutput (output f : List Char) : Except Unit (Option Json) :=
  match collectTexts output with
  | .error e => .error e
  | .ok texts =>
      match textsLoop f texts.reverse with
      | .error e => .error e
      | .ok (some r) => .ok (some r)
      | .ok none =>
          let raw := replaceEscapes output
          match (extractJsonBlocks raw).reverse.findSome? (fun b => tryParseJson b f) with
          | some r => .ok (some r)
          | none => .ok (findJsonObjects raw f)

/-! ## Process runner (`run_claude`) -/

/-- Outcome of one subprocess invocation: completion with an exit code,
stdout and stderr, or expiry of the wall-clock timeout. -/
inductive AttemptOutcome where
  | exit (returncode : Int) (stdout stderr : List Char) : AttemptOutcome
  | timedOut : AttemptOutcome

/-- Exceptions that can escape `run_claude`: the dedicated
`ClaudeTimeoutError`, or an `AttributeError` from the metering scan
reaching a parsed non-dict line. -/
inductive RunExn where
  | claudeTimeout (msg : List Char) : RunExn
  | attrError : RunExn

/-- Model of the `ClaudeResult` dataclass. -/
structure ClaudeResult where
  success : Bool
  output : List Char
  duration_ms : Json
  cost_usd : Json
  error : List Char

/-- The metering scan of `run_claude` (lines 68-80): the last parsed line
tagged `result` supplies `duration_ms` and `total_cost_usd`; a parsed
non-dict line raises `AttributeError` at `.get`. -/
def parseMeterGo : List (List Char) → Json × Json → Except Unit (Json × Json)
  | [], acc => .ok acc
  | line :: rest, acc =>
      if pyStrip line = [] then parseMeterGo rest acc
      else
        match loads line with
        | none => parseMeterGo rest acc
        | some msg =>
            match msg with
            | .obj fs =>
                match fs.lookup "type".data with
                | some (.str s) =>
                    if s = "result".data then
                      parseMeterGo rest
                        (dGet fs "duration_ms".data (.num 0),
                         dGet fs "total_cost_usd".data (.num 0))
                    else parseMeterGo rest acc
                | _ => parseMeterGo rest acc
            | _ => .error ()

/-- Scan an output for the accounting events. -/
def parseMeter (output : List Char) : Except Unit (Json × Json) :=
  parseMeterGo (splitLinesPy output) (.num 0, .num 0)

/-- The timeout message `f"Claude timed out after {timeout_sec}s"`. -/
def timeoutMsg (tsec : Nat) : List Char :=
  "Claude timed out after ".data ++ (Nat.repr tsec).data ++ "s".data

/-- The retry loop of `run_claude`: `oc k` is the outcome of attempt `k`
(1-based), `retries` the configured retry count, `b` the backoff base
delay, `tsec` the timeout.  Returns the result (or raised exception) and
the list of sleep durations performed, in order.  Attempts number
`1 .. retries + 1`, so `retries + 1` fuel is never exhausted. -/
def runClaudeLoop (oc : Nat → AttemptOutcome) (retries : Nat) (b : ℚ)
    (tsec : Nat) : Nat → Nat → Except RunExn ClaudeResult × List ℚ
  | 0, _ => (.error .attrError, [])
  | fuel + 1, attempt =>
      match oc attempt with
      | .exit rc out err =>
          match parseMeter out with
          | .error _ => (.error .attrError, [])
          | .ok (dur, cost) =>
              if rc = 0 then
                (.ok ⟨true, out, dur, cost, []⟩, [])
              else if attempt ≤ retries then
                let rs := runClaudeLoop oc retries b tsec fuel (attempt + 1)
                (rs.1, b * (attempt : ℚ) :: rs.2)
              else
                (.ok ⟨false, out, dur, cost,
                  if err = [] then "Claude CLI failed".data else err⟩, [])
      | .timedOut =>
          if attempt ≤ retries then
            let rs := runClaudeLoop oc retries b tsec fuel (attempt + 1)
            (rs.1, b * (attempt : ℚ) :: rs.2)
          else
            (.error (.claudeTimeout (timeoutMsg tsec)), [])

/-- Model of `run_claude`. -/
def runClaude (oc : Nat → AttemptOutcome) (retries : Nat) (b : ℚ)
    (tsec : Nat) : Except RunExn ClaudeResult × List ℚ :=
  runClaudeLoop oc retries b tsec (retries + 1) 1

/-! ## Data model (`models.py`) -/

/-- The `AgentStatus` enumeration. -/
inductive AgentStatus where
  | pending : AgentStatus
  | running : AgentStatus
  | success : AgentStatus
  | failed : AgentStatus
  | skipped : AgentStatus
deriving DecidableEq

/-- The `.value` string of an `AgentStatus`. -/
def statusValue : AgentStatus → List Char
  | .pending => "pending".data
  | .running => "running".data
  | .success => "success".data
  | .failed => "failed".data
  | .skipped => "skipped".data

/-- The `Classification` enumeration. -/
inductive Classification where
  | FIXABLE_CODE : Classification
  | FIXABLE_CONFIG : Classification
  | NEEDS_HUMAN : Classification
  | NEEDS_CLARIFICATION : Classification
  | OUT_OF_SCOPE : Classification
  | DUPLICATE : Classification
deriving DecidableEq

/-- The `.value` string of a `Classification`. -/
def classificationValue : Classification → List Char
  | .FIXABLE_CODE => "FIXABLE_CODE".data
  | .FIXABLE_CONFIG => "FIXABLE_CONFIG".data
  | .NEEDS_HUMAN => "NEEDS_HUMAN".data
  | .NEEDS_CLARIFICATION => "NEEDS_CLARIFICATION".data
  | .OUT_OF_SCOPE => "OUT_OF_SCOPE".data
  | .DUPLICATE => "DUPLICATE".data

/-- `Classification(value)`: look up the enumeration member by value
(`none` models the `ValueError`). -/
def classificationOfStr (s : List Char) : Option Classification :=
  if s = "FIXABLE_CODE".data then some .FIXABLE_CODE
  else if s = "FIXABLE_CONFIG".data then some .FIXABLE_CONFIG
  else if s = "NEEDS_HUMAN".data then some .NEEDS_HUMAN
  else if s = "NEEDS_CLARIFICATION".data then some .NEEDS_CLARIFICATION
  else if s = "OUT_OF_SCOPE".data then some .OUT_OF_SCOPE
  else if s = "DUPLICATE".data then some .DUPLICATE
  else none

/-- Model of the `AgentState` dataclass.  The timestamp is modelled as its
ISO-format string; `confidence` is kept as a JSON value because Python
does not enforce the `float` annotation on what `data.get` returns. -/
structure AgentState where
  agent : List Char
  status : AgentStatus
  issue_number : Int
  timestamp : List Char
  confidence : Json
  error : List Char
  data : List (List Char × Json)

/-- The dict-literal core of `AgentState.to_dict`, in source order. -/
def coreDict (st : AgentState) : List (List Char × Json) :=
  [("agent".data, .str st.agent),
   ("status".data, .str (statusValue st.status)),
   ("issue_number".data, .num (st.issue_number : ℚ)),
   ("timestamp".data, .str st.timestamp),
   ("confidence".data, st.confidence),
   ("error".data, .str st.error)]

/-- Model of `AgentState.to_dict`: the dict literal followed by
`**self.data`, which updates existing keys in place and appends new ones
(Python dict-merge semantics). -/
def AgentState.toDict (st : AgentState) : List (List Char × Json) :=
  st.data.foldl (fun acc kv => pyInsert acc kv.1 kv.2) (coreDict st)

/-- `classification in (Classification.FIXABLE_CODE, Classification.FIXABLE_CONFIG)`. -/
def isFixable : Classification → Bool
  | .FIXABLE_CODE => true
  | .FIXABLE_CONFIG => true
  | _ => false

/-- Model of the `TriageResult` dataclass. -/
structure TriageResult where
  classification : Classification
  confidence : ℚ
  clarity_score : ℚ
  feasibility_score : ℚ
  summary : List Char
  reasoning : List Char
  risks : List (List Char)
  suggested_approach : List Char
  questions_if_unclear : List (List Char)
  estimated_complexity : List Char

/-- The `TriageResult.should_proceed` property of `models.py`, with its
hard-coded `0.6` threshold. -/
def TriageResult.shouldProceed (r : TriageResult) : Bool :=
  isFixable r.classification && decide (mkRat 6 10 ≤ r.confidence)

/-! ## Agent executor contract (`agents/base.py`) -/

/-- Model of `Agent.execute`: `run`'s normal return carries a status and a
payload; an exception carries its message.  `execute` persists `running`,
then on normal return stores the status, payload and the payload's
`confidence` (default `0.0`); on an exception it stores `failed` and the
message verbatim, and does not re-raise.  The returned state is the one
persisted by the final `save_state`. -/
def agentExecute (st : AgentState)
    (runResult : Except (List Char) (AgentStatus × List (List Char × Json))) :
    AgentState :=
  let st₁ := { st with status := AgentStatus.running }
  match runResult with
  | .ok sd =>
      { st₁ with
        status := sd.1
        data := sd.2
        confidence := dGet sd.2 "confidence".data (.num 0) }
  | .error msg => { st₁ with status := .failed, error := msg }

/-! ## Stage logic (`agents/triage.py`, `research.py`, `review.py`) -/

/-- Python `float(x)` on a string: optional surrounding whitespace, sign,
digits with an optional dot on either side, optional exponent; `none`
models the `ValueError`.  (The `inf` / `nan` spellings, underscores and
non-ASCII digits are not modelled.) -/
def floatOfStr (s0 : List Char) : Option ℚ :=
  let s := pyStrip s0
  let (neg, s₁) :=
    match s with
    | '-' :: r => (true, r)
    | '+' :: r => (false, r)
    | _ => (false, s)
  let (intDs, s₂) := takeDigits s₁
  let (fracDs, s₃) :=
    match s₂ with
    | '.' :: r => takeDigits r
    | _ => ([], s₂)
  if intDs = [] ∧ fracDs = [] then none
  else
    let (expOk, expSign, expDs, s₄) :=
      match s₃ with
      | e :: r =>
          if e = 'e' ∨ e = 'E' then
            let (sgn, r₂) :=
              match r with
              | '+' :: r₃ => ((1 : Int), r₃)
              | '-' :: r₃ => ((-1 : Int), r₃)
              | _ => ((1 : Int), r)
            match takeDigits r₂ with
            | ([], _) => (false, (1 : Int), ([] : List Char), s₃)
            | (ds, rest) => (true, sgn, ds, rest)
          else (true, (1 : Int), ([] : List Char), s₃)
      | [] => (true, (1 : Int), ([] : List Char), s₃)
    if ¬ expOk ∨ s₄ ≠ [] then none
    else
      let M : Int :=
        ((digitsVal intDs * 10 ^ fracDs.length + digitsVal fracDs : Nat) : Int)
      let Ms : Int := if neg then -M else M
      let E : Int := expSign * (digitsVal expDs : Int) - (fracDs.length : Int)
      some (if 0 ≤ E then mkRat (Ms * 10 ^ E.toNat) 1 else mkRat Ms (10 ^ (-E).toNat))

/-- Python `float(x)` on a JSON value: numbers pass through, booleans are
`1.0` / `0.0`, strings are parsed, everything else raises `TypeError`
(`none`). -/
def floatOfJson : Json → Option ℚ
  | .num q => some q
  | .bool b => some (if b then 1 else 0)
  | .str s => floatOfStr s
  | _ => none

/-- Python truthiness of a JSON value. -/
def pyTruthy : Json → Bool
  | .null => false
  | .bool b => b
  | .num q => !(decide (q = 0))
  | .str s => !s.isEmpty
  | .arr xs => !xs.isEmpty
  | .obj fs => !fs.isEmpty

/-- Whether `len(x)` is defined for the value (str, list, dict). -/
def hasLen : Json → Bool
  | .str _ => true
  | .arr _ => true
  | .obj _ => true
  | _ => false

/-- The gate computed at lines 74-78 of `agents/triage.py`:
`classification in (FIXABLE_CODE, FIXABLE_CONFIG) and confidence >= min_triage_confidence`. -/
def triageShouldProceed (c : Classification) (conf m : ℚ) : Bool :=
  isFixable c && decide (m ≤ conf)

/-- The status derived from the gate (lines 80-85 of `agents/triage.py`). -/
def triageStatusOf (c : Classification) (conf m : ℚ) : AgentStatus :=
  if triageShouldProceed c conf m then .success else .skipped

/-- The low-confidence default substituted by the triage stage when no
structured result could be extracted (lines 46-57 of `agents/triage.py`). -/
def triageDefaultData : List (List Char × Json) :=
  [("classification".data, .str "NEEDS_CLARIFICATION".data),
   ("confidence".data, .num (mkRat 3 10)),
   ("clarity_score".data, .num (mkRat 3 10)),
   ("feasibility_score".data, .num (mkRat 3 10)),
   ("summary".data, .str "Could not parse issue automatically".data),
   ("reasoning".data, .str "Triage agent failed to produce structured output".data),
   ("risks".data, .arr [.str "Unknown issue structure".data]),
   ("suggested_approach".data, .str "Manual review required".data),
   ("questions_if_unclear".data, .arr [.str "What is the expected behavior?".data]),
   ("estimated_complexity".data, .str "unknown".data)]

/-- Lines 44-94 of `agents/triage.py`, from the extraction result on:
falsy extraction data is replaced by the default, the classification is
parsed with a `ValueError` fallback to `NEEDS_CLARIFICATION`, the
confidence converted with `float()` (whose `ValueError`/`TypeError`
propagates, as an `Except.error`), the gate decides the status, and the
result payload is assembled. -/
def triageAfterExtract (extracted : Option (List (List Char × Json)))
    (m : ℚ) : Except (List Char) (AgentStatus × List (List Char × Json)) :=
  let data :=
    match extracted with
    | none => triageDefaultData
    | some fs => if fs.isEmpty then triageDefaultData else fs
  let classification :=
    match dGet data "classification".data (.str "NEEDS_CLARIFICATION".data) with
    | .str s => (classificationOfStr s).getD .NEEDS_CLARIFICATION
    | _ => .NEEDS_CLARIFICATION
  match floatOfJson (dGet data "confidence".data (.num (mkRat 1 2))) with
  | none => .error "could not convert to float".data
  | some confidence =>
      let sp := triageShouldProceed classification confidence m
      .ok (triageStatusOf classification confidence m,
        [("classification".data, .str (classificationValue classification)),
         ("confidence".data, .num confidence),
         ("should_proceed".data, .bool sp),
         ("summary".data, dGet data "summary".data (.str "No summary".data)),
         ("complexity".data, dGet data "estimated_complexity".data (.str "unknown".data)),
         ("full_analysis".data, .obj data)])

/-- The low-confidence default substituted by the research stage when no
structured result could be extracted (lines 67-75 of `agents/research.py`). -/
def researchDefaultData : List (List Char × Json) :=
  [("confidence".data, .num (mkRat 3 10)),
   ("files_analyzed".data, .arr []),
   ("root_cause".data, .str "Could not determine".data),
   ("proposed_fix".data, .str "Manual analysis required".data),
   ("affected_areas".data, .arr []),
   ("test_strategy".data, .str "Unknown".data)]

/-- Lines 62-94 of `agents/research.py`, from the extraction result on:
falsy extraction data is replaced by the default, `float()` may raise,
`len(files_analyzed)` may raise `TypeError`, a confidence below
`min_research_confidence` only logs a warning, and the stage always
returns `SUCCESS`. -/
def researchAfterExtract (extracted : Option (List (List Char × Json)))
    (m : ℚ) : Except (List Char) (AgentStatus × List (List Char × Json)) :=
  let data :=
    match extracted with
    | none => researchDefaultData
    | some fs => if fs.isEmpty then researchDefaultData else fs
  match floatOfJson (dGet data "confidence".data (.num (mkRat 1 2))) with
  | none => .error "could not convert to float".data
  | some confidence =>
      let files := dGet data "files_analyzed".data (.arr [])
      if ¬ hasLen files then .error "object has no len".data
      else
        .ok (.success,
          [("confidence".data, .num confidence),
           ("files_analyzed".data, files),
           ("root_cause".data, dGet data "root_cause".data (.str [])),
           ("proposed_fix".data, dGet data "proposed_fix".data (.str [])),
           ("affected_areas".data, dGet data "affected_areas".data (.arr [])),
           ("test_strategy".data, dGet data "test_strategy".data (.str [])),
           ("full_analysis".data, .obj data)])

/-- Whether `", ".join(x)` is defined for the value (a string, a list of
strings, or a dict, whose iteration yields its string keys). -/
def joinable : Json → Bool
  | .str _ => true
  | .arr xs => xs.all (fun x => match x with | .str _ => true | _ => false)
  | .obj _ => true
  | _ => false

/-- Lines 65-96 of `agents/review.py`, from the extraction result on:
missing (falsy) extraction data fails the stage; otherwise `float()` may
raise, truthy concerns are joined for logging (which may raise
`TypeError`), and the approval flag decides `SUCCESS` versus `SKIPPED`. -/
def reviewAfterExtract (extracted : Option (List (List Char × Json))) :
    Except (List Char) (AgentStatus × List (List Char × Json)) :=
  let missing : Bool :=
    match extracted with
    | none => true
    | some fs => fs.isEmpty
  if missing then
    .ok (.failed, [("error".data, .str "Review output missing required JSON".data)])
  else
    let data := extracted.getD []
    let approved := pyTruthy (dGet data "approved".data (.bool false))
    let verdict := dGet data "verdict".data (.str "UNKNOWN".data)
    match floatOfJson (dGet data "confidence".data (.num (mkRat 1 2))) with
    | none => .error "could not convert to float".data
    | some confidence =>
        let concerns := dGet data "concerns".data (.arr [])
        if pyTruthy concerns ∧ ¬ joinable concerns then
          .error "can only join strings".data
        else
          .ok (if approved then .success else .skipped,
            [("approved".data, .bool approved),
             ("confidence".data, .num confidence),
             ("verdict".data, verdict),
             ("concerns".data, concerns),
             ("suggestions".data, dGet data "suggestions".data (.arr []))])

/-! ## Theorems -/

/-- Specification-side predicate for C5: some mapping anywhere in the tree
of the value has the required field as a key. -/
inductive HasFieldDeep (f : List Char) : Json → Prop where
  | here (fs : List (List Char × Json)) (kv : List Char × Json)
      (hmem : kv ∈ fs) (hkey : kv.1 = f) : HasFieldDeep f (.obj fs)
  | inObj (fs : List (List Char × Json)) (kv : List Char × Json)
      (hmem : kv ∈ fs) (h : HasFieldDeep f kv.2) : HasFieldDeep f (.obj fs)
  | inArr (xs : List Json) (x : Json)
      (hmem : x ∈ xs) (h : HasFieldDeep f x) : HasFieldDeep f (.arr xs)

theorem pairsContain_iff (f : List Char) (fs : List (List Char × Json)) :
    pairsContain f fs = true ↔ ∃ kv ∈ fs, containsRequiredField f kv.2 = true := by
  induction fs with
  | nil =>
      constructor
      · intro h; simp [pairsContain] at h
      · rintro ⟨kv, hkv, _⟩; exact absurd hkv (List.not_mem_nil kv)
  | cons kv r ih =>
      simp only [pairsContain, Bool.or_eq_true, ih, List.mem_cons]
      constructor
      · rintro (h | ⟨x, hx, h⟩)
        · exact ⟨kv, Or.inl rfl, h⟩
        · exact ⟨x, Or.inr hx, h⟩
      · rintro ⟨x, (rfl | hx), h⟩
        · exact Or.inl h
        · exact Or.inr ⟨x, hx, h⟩

theorem listContains_iff (f : List Char) (xs : List Json) :
    listContains f xs = true ↔ ∃ x ∈ xs, containsRequiredField f x = true := by
  induction xs with
  | nil =>
      constructor
      · intro h; simp [listContains] at h
      · rintro ⟨x, hx, _⟩; exact absurd hx (List.not_mem_nil x)
  | cons x r ih =>
      simp only [listContains, Bool.or_eq_true, ih, List.mem_cons]
      constructor
      · rintro (h | ⟨y, hy, h⟩)
        · exact ⟨x, Or.inl rfl, h⟩
        · exact ⟨y, Or.inr hy, h⟩
      · rintro ⟨y, (rfl | hy), h⟩
        · exact Or.inl h
        · exact Or.inr ⟨y, hy, h⟩

/-- C5: `_contains_required_field` returns true exactly when some mapping
anywhere in the tree (nested through mappings and sequences) has the
required field as a key; scalars never match. -/
theorem contains_required_field_iff_deep (f : List Char) (v : Json) :
    containsRequiredField f v = true ↔ HasFieldDeep f v := by
  have key : ∀ n v, sizeOf (v : Json) ≤ n →
      (containsRequiredField f v = true ↔ HasFieldDeep f v) := by
    intro n
    induction n using Nat.strong_induction_on with
    | _ n ih =>
      intro v hv
      match v with
      | .null =>
          constructor
          · intro h; simp [containsRequiredField] at h
          · intro h; nomatch h
      | .bool b =>
          constructor
          · intro h; simp [containsRequiredField] at h
          · intro h; nomatch h
      | .num q =>
          constructor
          · intro h; simp [containsRequiredField] at h
          · intro h; nomatch h
      | .str s =>
          constructor
          · intro h; simp [containsRequiredField] at h
          · intro h; nomatch h
      | .obj fs =>
          have hsz : ∀ kv : List Char × Json, kv ∈ fs → sizeOf kv.2 < n := by
            intro kv hmem
            have h1 : sizeOf kv < sizeOf fs := List.sizeOf_lt_of_mem hmem
            have h2 : sizeOf (Json.obj fs) = 1 + sizeOf fs := by simp
            have h3 : sizeOf kv.2 < sizeOf kv := by
              obtain ⟨a, b⟩ := kv
              simp
            omega
          rw [show containsRequiredField f (.obj fs) =
              (fs.any (fun kv => kv.1 == f) || pairsContain f fs) from rfl]
          rw [Bool.or_eq_true]
          constructor
          · intro h
            rcases h with h | h
            · obtain ⟨kv, hmem, hkey⟩ := List.any_eq_true.mp h
              exact HasFieldDeep.here fs kv hmem (by simpa using hkey)
            · obtain ⟨kv, hmem, hc⟩ := (pairsContain_iff f fs).mp h
              exact HasFieldDeep.inObj fs kv hmem
                ((ih (sizeOf kv.2) (hsz kv hmem) kv.2 (le_refl _)).mp hc)
          · intro h
            cases h with
            | here fs kv hmem hkey =>
                exact Or.inl (List.any_eq_true.mpr ⟨kv, hmem, by simpa using hkey⟩)
            | inObj fs kv hmem hd =>
                exact Or.inr ((pairsContain_iff f fs).mpr
                  ⟨kv, hmem, (ih (sizeOf kv.2) (hsz kv hmem) kv.2 (le_refl _)).mpr hd⟩)
      | .arr xs =>
          have hsz : ∀ x : Json, x ∈ xs → sizeOf x < n := by
            intro x hmem
            have h1 : sizeOf x < sizeOf xs := List.sizeOf_lt_of_mem hmem
            have h2 : sizeOf (Json.arr xs) = 1 + sizeOf xs := by simp
            omega
          rw [show containsRequiredField f (.arr xs) = listContains f xs from rfl]
          constructor
          · intro h
            obtain ⟨x, hmem, hc⟩ := (listContains_iff f xs).mp h
            exact HasFieldDeep.inArr xs x hmem
              ((ih (sizeOf x) (hsz x hmem) x (le_refl _)).mp hc)
          · intro h
            cases h with
            | inArr xs x hmem hd =>
                exact (listContains_iff f xs).mpr
                  ⟨x, hmem, (ih (sizeOf x) (hsz x hmem) x (le_refl _)).mpr hd⟩
  exact key (sizeOf v) v (le_refl _)

/-- C1: the triage stage proceeds (status `success`, `should_proceed`
true) exactly when the classification is `FIXABLE_CODE` or
`FIXABLE_CONFIG` and the confidence is at least `min_triage_confidence`;
the boundary is inclusive (confidence equal to the threshold proceeds) and
any confidence strictly below it yields `skipped`; the
`TriageResult.should_proceed` property of `models.py` is the same gate at
its hard-coded `0.6` threshold. -/
theorem triage_gate_inclusive_boundary (c : Classification) (conf m : ℚ) :
    ((triageStatusOf c conf m = .success ∧ triageShouldProceed c conf m = true) ↔
      ((c = .FIXABLE_CODE ∨ c = .FIXABLE_CONFIG) ∧ m ≤ conf))
    ∧ ((c = .FIXABLE_CODE ∨ c = .FIXABLE_CONFIG) →
        triageStatusOf c m m = .success ∧ triageShouldProceed c m m = true)
    ∧ (conf < m →
        triageStatusOf c conf m = .skipped ∧ triageShouldProceed c conf m = false)
    ∧ (∀ r : TriageResult,
        r.shouldProceed = triageShouldProceed r.classification r.confidence (mkRat 6 10)) := by
  have hsp : ∀ (c : Classification) (conf m : ℚ), triageShouldProceed c conf m = true ↔
      ((c = .FIXABLE_CODE ∨ c = .FIXABLE_CONFIG) ∧ m ≤ conf) := by
    intro c conf m
    cases c <;> simp [triageShouldProceed, isFixable]
  have hst : ∀ (c : Classification) (conf m : ℚ), triageStatusOf c conf m = .success ↔
      triageShouldProceed c conf m = true := by
    intro c conf m
    unfold triageStatusOf
    by_cases h : triageShouldProceed c conf m = true
    · simp [h]
    · simp [h]
  refine ⟨?_, ?_, ?_, fun r => rfl⟩
  · constructor
    · intro h; exact (hsp c conf m).mp h.2
    · intro h; exact ⟨(hst c conf m).mpr ((hsp c conf m).mpr h), (hsp c conf m).mpr h⟩
  · intro h
    have hp := (hsp c m m).mpr ⟨h, le_refl m⟩
    exact ⟨(hst c m m).mpr hp, hp⟩
  · intro h
    have h2 : triageShouldProceed c conf m = false := by
      cases hb : triageShouldProceed c conf m
      · rfl
      · exact absurd ((hsp c conf m).mp hb).2 (not_le.mpr h)
    refine ⟨?_, h2⟩
    unfold triageStatusOf
    simp [h2]

/-- Witness for C1 at the concrete boundary: confidence exactly `0.6`
against threshold `0.6` proceeds; `0.59` does not. -/
theorem triage_gate_inclusive_boundary_witness :
    (triageStatusOf .FIXABLE_CODE (mkRat 6 10) (mkRat 6 10) = .success ∧
      triageShouldProceed .FIXABLE_CODE (mkRat 6 10) (mkRat 6 10) = true)
    ∧ (triageStatusOf .FIXABLE_CODE (mkRat 59 100) (mkRat 6 10) = .skipped ∧
      triageShouldProceed .FIXABLE_CODE (mkRat 59 100) (mkRat 6 10) = false) :=
  ⟨(triage_gate_inclusive_boundary .FIXABLE_CODE (mkRat 6 10) (mkRat 6 10)).2.1
      (Or.inl rfl),
   (triage_gate_inclusive_boundary .FIXABLE_CODE (mkRat 59 100) (mkRat 6 10)).2.2.1
      (by decide)⟩

/-- C6: `Agent.execute` converts an exception raised out of `run` into a
state with status `failed` and the exception's message stored verbatim in
the error field (it does not re-raise: the model is a total function into
states); on a normal return it stores the returned status and payload and
sets the state's confidence to the payload's `confidence` value,
defaulting to `0.0` when that key is absent. -/
theorem agent_execute_contract (st : AgentState)
    (r : Except (List Char) (AgentStatus × List (List Char × Json))) :
    agentExecute st r =
      match r with
      | .ok sd =>
          { st with
            status := sd.1
            data := sd.2
            confidence := dGet sd.2 "confidence".data (.num 0) }
      | .error msg => { st with status := .failed, error := msg } := by
  cases r with
  | ok sd => rfl
  | error msg => rfl

/-- C8: extraction failure is stage-defined.  The triage stage substitutes
the low-confidence default (classification `NEEDS_CLARIFICATION`,
confidence `0.3`) and continues to its normal gating, ending `skipped`
(never `failed`); the review stage returns status `failed` with an error
payload. -/
theorem extraction_failure_stage_defined (m : ℚ) :
    triageAfterExtract none m =
      .ok (.skipped,
        [("classification".data, .str "NEEDS_CLARIFICATION".data),
         ("confidence".data, .num (mkRat 3 10)),
         ("should_proceed".data, .bool false),
         ("summary".data, .str "Could not parse issue automatically".data),
         ("complexity".data, .str "unknown".data),
         ("full_analysis".data, .obj triageDefaultData)])
    ∧ triageStatusOf .NEEDS_CLARIFICATION (mkRat 3 10) m = .skipped
    ∧ AgentStatus.skipped ≠ AgentStatus.failed
    ∧ reviewAfterExtract none =
        .ok (.failed, [("error".data, .str "Review output missing required JSON".data)]) := by
  exact ⟨rfl, rfl, by simp, rfl⟩

/-- C9: the research stage is a soft gate — its result does not depend on
`min_research_confidence` at all, and whenever its post-call logic returns
normally the status is `success`, regardless of the extracted
confidence. -/
theorem research_soft_gate (d : Option (List (List Char × Json))) (m m' : ℚ) :
    researchAfterExtract d m = researchAfterExtract d m'
    ∧ ∀ r, researchAfterExtract d m = .ok r → r.1 = .success := by
  constructor
  · rfl
  · intro r h
    simp only [researchAfterExtract] at h
    split at h
    · exact absurd h (by simp)
    · split at h
      · exact absurd h (by simp)
      · injection h with h2
        subst h2
        rfl

/-- Witness for C9: with extracted confidence `0.1`, below the default
`min_research_confidence` of `0.4`, the stage's result is the same as with
threshold `0.9`, and the status of its normal return is `success`. -/
theorem research_soft_gate_witness :
    researchAfterExtract (some [("confidence".data, Json.num (mkRat 1 10))]) (mkRat 4 10) =
      researchAfterExtract (some [("confidence".data, Json.num (mkRat 1 10))]) (mkRat 9 10)
    ∧ ((AgentStatus.success,
        [("confidence".data, Json.num (mkRat 1 10)),
         ("files_analyzed".data, Json.arr []),
         ("root_cause".data, Json.str []),
         ("proposed_fix".data, Json.str []),
         ("affected_areas".data, Json.arr []),
         ("test_strategy".data, Json.str []),
         ("full_analysis".data,
          Json.obj [("confidence".data, Json.num (mkRat 1 10))])]) :
        AgentStatus × List (List Char × Json)).1 = AgentStatus.success :=
  ⟨(research_soft_gate (some [("confidence".data, Json.num (mkRat 1 10))])
      (mkRat 4 10) (mkRat 9 10)).1,
   (research_soft_gate (some [("confidence".data, Json.num (mkRat 1 10))])
      (mkRat 4 10) (mkRat 9 10)).2 _ rfl⟩

/-- The failing input for the `i += end_idx` advance of
`_find_json_objects`: text, then a decodable object without the field,
then a decodable object with it. -/
def cex4 : List Char :=
  "x \x7b\"other\": 1\x7d \x7b\"classification\": \"bug\"\x7d".data

/-- C4 (code bug): the fallback scan misses the later mapping.  The skip
loop stops at the first bracket (position 2); `raw_decode` there returns
the field-less object and the absolute end index 14, after which
`i += end_idx` moves to 16, beyond the start (15) of the second object,
which decodes fine and contains the required field — yet the whole scan
returns "not found". -/
theorem find_json_objects_overshoots :
    findJsonObjects cex4 "classification".data = none
    ∧ skipToBracket cex4 (cex4.length + 1) 0 = some 2
    ∧ rawDecode cex4 2 = some (.obj [("other".data, .num (mkRat 1 1))], 14)
    ∧ rawDecode cex4 15 = some (.obj [("classification".data, .str "bug".data)], 40)
    ∧ containsRequiredField "classification".data
        (.obj [("classification".data, .str "bug".data)]) = true :=
  ⟨rfl, rfl, rfl, rfl, rfl⟩

/-- A fenced block whose content holds a literal triple backtick followed
by a space, as ordinary string content. -/
def cex3 : List Char :=
  "```json\n\x7b\"classification\": \"x\", \"note\": \"``` fence\"\x7d\n```".data

/-- Counterexample to C3 as stated: the internal triple backtick, being
followed by whitespace, is taken as the closing fence, so the block is
truncated — not extracted whole — and the truncated block no longer
parses. -/
theorem extract_blocks_truncated_by_internal_fence :
    extractJsonBlocks cex3 = ["\x7b\"classification\": \"x\", \"note\": \"".data]
    ∧ "\x7b\"classification\": \"x\", \"note\": \"".data ≠
        "\x7b\"classification\": \"x\", \"note\": \"``` fence\"\x7d".data
    ∧ tryParseJson "\x7b\"classification\": \"x\", \"note\": \"".data
        "classification".data = none :=
  ⟨rfl, by decide, rfl⟩

/-- The sleeps `b * a, b * (a + 1), ...` (`n` of them) performed by the
retry loop from attempt `a` on. -/
def backoffSleeps (b : ℚ) (a n : Nat) : List ℚ :=
  (List.range n).map (fun j => b * ((a + j : Nat) : ℚ))

theorem backoffSleeps_succ (b : ℚ) (a n : Nat) :
    backoffSleeps b a (n + 1) = b * (a : ℚ) :: backoffSleeps b (a + 1) n := by
  unfold backoffSleeps
  rw [List.range_succ_eq_map, List.map_cons, List.map_map]
  refine congrArg₂ (· :: ·) (by norm_num) (List.map_congr_left ?_)
  intro j hj
  simp only [Function.comp]
  congr 2
  omega

theorem runClaudeLoop_timeout (oc : Nat → AttemptOutcome) (retries : Nat)
    (b : ℚ) (tsec : Nat) (h : ∀ k, oc k = .timedOut) :
    ∀ fuel a, 1 ≤ a → a ≤ retries + 1 → retries + 1 - a < fuel →
      runClaudeLoop oc retries b tsec fuel a =
        (.error (.claudeTimeout (timeoutMsg tsec)),
         backoffSleeps b a (retries + 1 - a)) := by
  intro fuel
  induction fuel with
  | zero => intro a h1 h2 h3; omega
  | succ n ih =>
      intro a h1 h2 h3
      rw [runClaudeLoop, h a]
      by_cases hle : a ≤ retries
      · rw [if_pos hle, ih (a + 1) (by omega) (by omega) (by omega)]
        have hn : retries + 1 - a = (retries + 1 - (a + 1)) + 1 := by omega
        rw [hn, backoffSleeps_succ]
      · rw [if_neg hle]
        have hn : retries + 1 - a = 0 := by omega
        rw [hn]
        rfl

theorem runClaudeLoop_nonzero (oc : Nat → AttemptOutcome) (retries : Nat)
    (b : ℚ) (tsec : Nat)
    (h : ∀ k, ∃ rc out err, oc k = .exit rc out err ∧ rc ≠ 0 ∧
        ∃ met, parseMeter out = .ok met) :
    ∀ fuel a, 1 ≤ a → a ≤ retries + 1 → retries + 1 - a < fuel →
      ∃ res, runClaudeLoop oc retries b tsec fuel a =
          (.ok res, backoffSleeps b a (retries + 1 - a))
        ∧ res.success = false := by
  intro fuel
  induction fuel with
  | zero => intro a h1 h2 h3; omega
  | succ n ih =>
      intro a h1 h2 h3
      obtain ⟨rc, out, err, hoc, hrc, ⟨dur, cost⟩, hmet⟩ := h a
      rw [runClaudeLoop, hoc]
      dsimp only []
      rw [hmet]
      dsimp only []
      by_cases hle : a ≤ retries
      · obtain ⟨res, hres, hsucc⟩ := ih (a + 1) (by omega) (by omega) (by omega)
        refine ⟨res, ?_, hsucc⟩
        rw [if_neg hrc, if_pos hle, hres]
        have hn : retries + 1 - a = (retries + 1 - (a + 1)) + 1 := by omega
        rw [hn, backoffSleeps_succ]
      · refine ⟨⟨false, out, dur, cost,
          if err = [] then "Claude CLI failed".data else err⟩, ?_, rfl⟩
        rw [if_neg hrc, if_neg hle]
        have hn : retries + 1 - a = 0 := by omega
        rw [hn]
        rfl

/-- C7: with retry count `retries` and base delay `b`, `run_claude` makes
`retries + 1` attempts with linearly increasing backoff — it sleeps
`b * 1, b * 2, …, b * retries`, one sleep before each re-attempt.  When
every attempt times out, the final attempt raises the distinct
`ClaudeTimeoutError` rather than returning a failure result; when every
attempt exits non-zero, the final attempt returns a result with
`success = false`. -/
theorem run_claude_retry_and_timeout (oc : Nat → AttemptOutcome)
    (retries : Nat) (b : ℚ) (tsec : Nat) :
    ((∀ k, oc k = .timedOut) →
      runClaude oc retries b tsec =
        (.error (.claudeTimeout (timeoutMsg tsec)), backoffSleeps b 1 retries))
    ∧ ((∀ k, ∃ rc out err, oc k = .exit rc out err ∧ rc ≠ 0 ∧
          ∃ met, parseMeter out = .ok met) →
      ∃ res, runClaude oc retries b tsec = (.ok res, backoffSleeps b 1 retries)
        ∧ res.success = false) := by
  constructor
  · intro h
    have := runClaudeLoop_timeout oc retries b tsec h (retries + 1) 1
      (le_refl 1) (by omega) (by omega)
    simpa [runClaude, show retries + 1 - 1 = retries from by omega] using this
  · intro h
    obtain ⟨res, hres, hsucc⟩ := runClaudeLoop_nonzero oc retries b tsec h
      (retries + 1) 1 (le_refl 1) (by omega) (by omega)
    refine ⟨res, ?_, hsucc⟩
    rw [runClaude, hres, show retries + 1 - 1 = retries from by omega]

/-- Witness for C7: three all-timeout attempts with `retries = 2` raise
the timeout error after sleeping `b * 1` and `b * 2`; three non-zero-exit
attempts return `success = false` with the same sleeps. -/
theorem run_claude_retry_and_timeout_witness :
    (runClaude (fun _ => .timedOut) 2 (mkRat 1 2) 600 =
      (.error (.claudeTimeout (timeoutMsg 600)), backoffSleeps (mkRat 1 2) 1 2))
    ∧ ∃ res, runClaude (fun _ => .exit 1 [] []) 2 (mkRat 1 2) 600 =
        (.ok res, backoffSleeps (mkRat 1 2) 1 2) ∧ res.success = false :=
  ⟨(run_claude_retry_and_timeout (fun _ => .timedOut) 2 (mkRat 1 2) 600).1
      (fun k => rfl),
   (run_claude_retry_and_timeout (fun _ => .exit 1 [] []) 2 (mkRat 1 2) 600).2
      (fun k => ⟨1, [], [], rfl, by decide, (.num 0, .num 0), rfl⟩)⟩

theorem pyInsert_lookup_self (fs : List (List Char × Json)) (k : List Char) (v : Json) :
    (pyInsert fs k v).lookup k = some v := by
  induction fs with
  | nil => simp [pyInsert, List.lookup]
  | cons kv r ih =>
      obtain ⟨k₀, v₀⟩ := kv
      by_cases h : k₀ = k
      · subst h
        simp [pyInsert, List.lookup]
      · rw [show pyInsert ((k₀, v₀) :: r) k v = (k₀, v₀) :: pyInsert r k v from by
            simp [pyInsert, h]]
        rw [List.lookup]
        rw [show (k == k₀) = false from beq_eq_false_iff_ne.mpr (Ne.symm h)]
        exact ih

theorem pyInsert_lookup_other (fs : List (List Char × Json)) (k : List Char)
    (v : Json) (k' : List Char) (h : k' ≠ k) :
    (pyInsert fs k v).lookup k' = fs.lookup k' := by
  induction fs with
  | nil =>
      simp [pyInsert, List.lookup, beq_eq_false_iff_ne.mpr h]
  | cons kv r ih =>
      obtain ⟨k₀, v₀⟩ := kv
      by_cases h0 : k₀ = k
      · subst h0
        rw [show pyInsert ((k₀, v₀) :: r) k₀ v = (k₀, v) :: r from by simp [pyInsert]]
        rw [List.lookup, List.lookup]
        rw [show (k' == k₀) = false from beq_eq_false_iff_ne.mpr h]
      · rw [show pyInsert ((k₀, v₀) :: r) k v = (k₀, v₀) :: pyInsert r k v from by
            simp [pyInsert, h0]]
        rw [List.lookup, List.lookup]
        cases hbe : (k' == k₀) with
        | true => rfl
        | false => exact ih

theorem pyInsert_of_lookup_none (fs : List (List Char × Json)) (k : List Char)
    (v : Json) (h : fs.lookup k = none) :
    pyInsert fs k v = fs ++ [(k, v)] := by
  induction fs with
  | nil => rfl
  | cons kv r ih =>
      obtain ⟨k₀, v₀⟩ := kv
      rw [List.lookup] at h
      cases hbe : (k == k₀) with
      | true => rw [hbe] at h; cases h
      | false =>
          rw [hbe] at h
          have hne : k₀ ≠ k := Ne.symm (ne_of_beq_false hbe)
          rw [show pyInsert ((k₀, v₀) :: r) k v = (k₀, v₀) :: pyInsert r k v from by
              simp [pyInsert, hne]]
          rw [ih h]
          rfl

theorem lookup_append_none (a b : List (List Char × Json)) (k : List Char)
    (h : a.lookup k = none) : (a ++ b).lookup k = b.lookup k := by
  induction a with
  | nil => rfl
  | cons kv r ih =>
      obtain ⟨k₀, v₀⟩ := kv
      rw [List.lookup] at h
      rw [List.cons_append, List.lookup]
      cases hbe : (k == k₀) with
      | true => rw [hbe] at h; cases h
      | false => rw [hbe] at h; exact ih h

theorem lookup_append_some (a b : List (List Char × Json)) (k : List Char)
    (v : Json) (h : a.lookup k = some v) : (a ++ b).lookup k = some v := by
  induction a with
  | nil => cases h
  | cons kv r ih =>
      obtain ⟨k₀, v₀⟩ := kv
      rw [List.lookup] at h
      rw [List.cons_append, List.lookup]
      cases hbe : (k == k₀) with
      | true => rw [hbe] at h; exact h
      | false => rw [hbe] at h; exact ih h

theorem merge_lookup_skip (base d : List (List Char × Json)) (k : List Char)
    (h : ∀ kv ∈ d, kv.1 ≠ k) :
    (d.foldl (fun acc kv => pyInsert acc kv.1 kv.2) base).lookup k = base.lookup k := by
  induction d generalizing base with
  | nil => rfl
  | cons kv r ih =>
      rw [List.foldl_cons, ih _ (fun x hx => h x (List.mem_cons_of_mem kv hx))]
      exact pyInsert_lookup_other base kv.1 kv.2 k
        (Ne.symm (h kv (List.mem_cons_self kv r)))

theorem merge_lookup_of_mem (base d : List (List Char × Json)) (k : List Char)
    (v : Json) (hnd : (d.map Prod.fst).Nodup) (h : d.lookup k = some v) :
    (d.foldl (fun acc kv => pyInsert acc kv.1 kv.2) base).lookup k = some v := by
  have H : ∀ d : List (List Char × Json), (d.map Prod.fst).Nodup →
      ∀ base k v, d.lookup k = some v →
        (d.foldl (fun acc kv => pyInsert acc kv.1 kv.2) base).lookup k = some v := by
    intro d
    induction d with
    | nil => intro _ base k v h; cases h
    | cons kv r ih =>
        intro hnd base k v h
        obtain ⟨k₀, v₀⟩ := kv
        rw [List.map_cons, List.nodup_cons] at hnd
        rw [List.lookup] at h
        rw [List.foldl_cons]
        dsimp only
        cases hbe : (k == k₀) with
        | true =>
            rw [hbe] at h
            have h' : some v₀ = some v := h
            have hk : k = k₀ := eq_of_beq hbe
            subst hk
            have hne : ∀ x ∈ r, x.1 ≠ k := by
              intro x hx he
              have hmem : x.1 ∈ r.map Prod.fst := List.mem_map_of_mem Prod.fst hx
              rw [he] at hmem
              exact hnd.1 hmem
            rw [merge_lookup_skip _ r k hne]
            rw [pyInsert_lookup_self base k v₀]
            exact h'
        | false =>
            rw [hbe] at h
            exact ih hnd.2 (pyInsert base k₀ v₀) k v h
  exact H d hnd base k v h

theorem merge_append (base d : List (List Char × Json))
    (hd : ∀ kv ∈ d, base.lookup kv.1 = none)
    (hnd : (d.map Prod.fst).Nodup) :
    d.foldl (fun acc kv => pyInsert acc kv.1 kv.2) base = base ++ d := by
  have H : ∀ d : List (List Char × Json), (d.map Prod.fst).Nodup →
      ∀ base, (∀ kv ∈ d, base.lookup kv.1 = none) →
        d.foldl (fun acc kv => pyInsert acc kv.1 kv.2) base = base ++ d := by
    intro d
    induction d with
    | nil => intro _ base _; simp
    | cons kv r ih =>
        intro hnd base hd
        obtain ⟨k₀, v₀⟩ := kv
        rw [List.map_cons, List.nodup_cons] at hnd
        rw [List.foldl_cons]
        dsimp only
        rw [pyInsert_of_lookup_none base k₀ v₀ (hd (k₀, v₀) (List.mem_cons_self _ r))]
        have h1 : ∀ kv ∈ r, (base ++ [(k₀, v₀)]).lookup kv.1 = none := by
          intro x hx
          rw [lookup_append_none base [(k₀, v₀)] x.1 (hd x (List.mem_cons_of_mem _ hx))]
          rw [List.lookup]
          have hne : x.1 ≠ k₀ := by
            intro he
            have hmem : x.1 ∈ r.map Prod.fst := List.mem_map_of_mem Prod.fst hx
            rw [he] at hmem
            exact hnd.1 hmem
          rw [show (x.1 == k₀) = false from beq_eq_false_iff_ne.mpr hne]
          rfl
        rw [ih hnd.2 (base ++ [(k₀, v₀)]) h1]
        rw [List.append_assoc]
        rfl
  exact H d hnd base hd

/-- The six core keys of the per-stage state record. -/
def coreKeys : List (List Char) :=
  ["agent".data, "status".data, "issue_number".data, "timestamp".data,
   "confidence".data, "error".data]

theorem coreDict_lookup_none (st : AgentState) (k : List Char)
    (h : k ∉ coreKeys) : (coreDict st).lookup k = none := by
  simp only [coreKeys, List.mem_cons, List.not_mem_nil, or_false, not_or] at h
  obtain ⟨h1, h2, h3, h4, h5, h6⟩ := h
  simp [coreDict, List.lookup, beq_eq_false_iff_ne.mpr h1,
    beq_eq_false_iff_ne.mpr h2, beq_eq_false_iff_ne.mpr h3,
    beq_eq_false_iff_ne.mpr h4, beq_eq_false_iff_ne.mpr h5,
    beq_eq_false_iff_ne.mpr h6]

/-- C10: `AgentState.to_dict` merges the stage payload at top level with
payload-wins precedence — a payload entry named after any of the six core
keys silently overwrites the core field in the record; when the payload
holds none of those keys the record is the core fields followed by the
payload, and each core key still maps to the state's own field. -/
theorem to_dict_payload_precedence (st : AgentState)
    (hnd : (st.data.map Prod.fst).Nodup) :
    (∀ k v, k ∈ coreKeys → st.data.lookup k = some v →
      (AgentState.toDict st).lookup k = some v)
    ∧ ((∀ kv ∈ st.data, kv.1 ∉ coreKeys) →
        AgentState.toDict st = coreDict st ++ st.data
        ∧ (AgentState.toDict st).lookup "agent".data = some (.str st.agent)
        ∧ (AgentState.toDict st).lookup "status".data = some (.str (statusValue st.status))
        ∧ (AgentState.toDict st).lookup "issue_number".data = some (.num (st.issue_number : ℚ))
        ∧ (AgentState.toDict st).lookup "timestamp".data = some (.str st.timestamp)
        ∧ (AgentState.toDict st).lookup "confidence".data = some st.confidence
        ∧ (AgentState.toDict st).lookup "error".data = some (.str st.error)) := by
  constructor
  · intro k v hk hkv
    exact merge_lookup_of_mem (coreDict st) st.data k v hnd hkv
  · intro h
    have happ : AgentState.toDict st = coreDict st ++ st.data := by
      apply merge_append
      · intro kv hkv
        exact coreDict_lookup_none st kv.1 (h kv hkv)
      · exact hnd
    refine ⟨happ, ?_, ?_, ?_, ?_, ?_, ?_⟩ <;>
      · rw [happ]
        exact lookup_append_some _ _ _ _ rfl

/-- Witness for C10: a payload key `status` overwrites the core status in
the serialized record; with a payload key outside the core set the record
is the core fields followed by the payload. -/
theorem to_dict_payload_precedence_witness :
    (AgentState.toDict
        ⟨"triage".data, .success, 7, "t0".data, Json.num (mkRat 1 2), [],
         [("status".data, Json.str "boom".data)]⟩).lookup "status".data
      = some (Json.str "boom".data)
    ∧ AgentState.toDict
        ⟨"triage".data, .success, 7, "t0".data, Json.num (mkRat 1 2), [],
         [("extra".data, Json.num (mkRat 1 1))]⟩
      = coreDict
          ⟨"triage".data, .success, 7, "t0".data, Json.num (mkRat 1 2), [],
           [("extra".data, Json.num (mkRat 1 1))]⟩
        ++ [("extra".data, Json.num (mkRat 1 1))] :=
  ⟨(to_dict_payload_precedence _ (by decide)).1 "status".data _ (by decide) rfl,
   ((to_dict_payload_precedence _ (by decide)).2 (by decide)).1⟩

/-! ## Occurrence lemmas for the block scanner -/

theorem subAt_len (t sub : List Char) (p : Nat) (hsub : sub ≠ [])
    (h : subAt t sub p = true) : p + sub.length ≤ t.length := by
  have hpre := List.isPrefixOf_iff_prefix.mp h
  have hle : sub.length ≤ (t.drop p).length := hpre.length_le
  rw [List.length_drop] at hle
  have hlen : 1 ≤ sub.length := by
    cases sub with
    | nil => exact absurd rfl hsub
    | cons a r => simp
  omega

theorem subAt_get (t sub : List Char) (p j : Nat)
    (h : subAt t sub p = true) (hj : j < sub.length) :
    t.get? (p + j) = sub.get? j := by
  obtain ⟨rest, hrest⟩ := List.isPrefixOf_iff_prefix.mp h
  have h1 : (t.drop p).get? j = t.get? (p + j) := List.get?_drop t p j
  rw [← h1, ← hrest, List.get?_append hj]

theorem subAt_of_get (t sub : List Char) (p : Nat)
    (hlen : p + sub.length ≤ t.length)
    (h : ∀ j, j < sub.length → t.get? (p + j) = sub.get? j) :
    subAt t sub p = true := by
  apply List.isPrefixOf_iff_prefix.mpr
  rw [List.prefix_iff_eq_take]
  apply List.ext_get?
  intro n
  by_cases hn : n < sub.length
  · rw [List.get?_take hn, List.get?_drop, ← h n hn]
  · have hlhs : sub.get? n = none := List.get?_eq_none.mpr (by omega)
    have hrhs : (((t.drop p).take sub.length)).get? n = none := by
      apply List.get?_eq_none.mpr
      rw [List.length_take]
      omega
    rw [hlhs, hrhs]

theorem findSubGo_min (t sub : List Char) :
    ∀ fuel s p, findSubGo t sub fuel s = some p →
      ∀ q, s ≤ q → q < p → subAt t sub q = false := by
  intro fuel
  induction fuel with
  | zero => intro s p hp; exact absurd hp (by simp [findSubGo])
  | succ n ih =>
      intro s p hp q h1 h2
      rw [findSubGo] at hp
      split at hp
      · split at hp
        · injection hp with hsp
          omega
        · rename_i hocc
          by_cases hq : q = s
          · subst hq
            exact Bool.not_eq_true _ ▸ (by simpa using hocc)
          · exact ih (s + 1) p hp q (by omega) h2
      · exact absurd hp (by simp)

theorem findSub_min (t sub : List Char) (s p : Nat)
    (hp : findSub t sub s = some p) :
    ∀ q, s ≤ q → q < p → subAt t sub q = false :=
  findSubGo_min t sub _ s p hp

theorem findSubGo_exists (t sub : List Char) :
    ∀ fuel s p, p - s < fuel → s ≤ p → subAt t sub p = true → p < t.length →
      ∃ c, findSubGo t sub fuel s = some c ∧ c ≤ p := by
  intro fuel
  induction fuel with
  | zero => intro s p h; omega
  | succ n ih =>
      intro s p hfuel hsp hocc hplen
      rw [findSubGo]
      rw [if_pos (by omega : s < t.length)]
      by_cases hs : subAt t sub s = true
      · rw [if_pos hs]
        exact ⟨s, rfl, hsp⟩
      · rw [if_neg hs]
        have hne : s ≠ p := fun he => hs (he ▸ hocc)
        obtain ⟨c, hc, hcp⟩ := ih (s + 1) p (by omega) (by omega) hocc hplen
        exact ⟨c, hc, hcp⟩

theorem findSub_exists (t sub : List Char) (s p : Nat)
    (hsp : s ≤ p) (hocc : subAt t sub p = true) (hplen : p < t.length) :
    ∃ c, findSub t sub s = some c ∧ c ≤ p :=
  findSubGo_exists t sub (t.length + 1) s p (by omega) hsp hocc hplen

/-- The closing-fence scan lands exactly on `P` when `P` is a closing
occurrence and every earlier occurrence in the scanned range is a
label-opened (skipped) fence that stays short of `P`. -/
theorem scanClose_reaches (t : List Char) (P s0 : Nat)
    (hocc : subAt t fence3 P = true)
    (hclose : P + 3 ≥ t.length ∨ closeWs (t.getD (P + 3) ' ') = true)
    (hmid : ∀ q, s0 ≤ q → q < P → subAt t fence3 q = true →
      q + 3 ≤ P ∧ q + 3 < t.length ∧ closeWs (t.getD (q + 3) ' ') = false) :
    ∀ sp, s0 ≤ sp → sp ≤ P → scanClose t sp = some P := by
  have hPlen : P < t.length := by
    have := subAt_len t fence3 P (by decide) hocc
    simp [fence3] at this
    omega
  have H : ∀ fuel sp, P - sp < fuel → s0 ≤ sp → sp ≤ P →
      scanCloseGo t fuel sp = some P := by
    intro fuel
    induction fuel with
    | zero => intro sp h; omega
    | succ n ih =>
        intro sp hfuel hs0 hsp
        obtain ⟨c, hc, hcP⟩ := findSub_exists t fence3 sp P hsp hocc hPlen
        rw [scanCloseGo, hc]
        dsimp only
        by_cases hcEq : c = P
        · subst hcEq
          rcases hclose with h | h
          · rw [if_pos h]
          · by_cases hge : c + 3 ≥ t.length
            · rw [if_pos hge]
            · rw [if_neg hge, if_pos h]
        · have hcLt : c < P := by omega
          have hsound := findSub_sound t fence3 sp c hc
          obtain ⟨hle3, hlt3, hws⟩ := hmid c (by omega) hcLt hsound.2.2
          rw [if_neg (by omega),
            if_neg (by simp [← List.getD_eq_getElem?_getD, hws])]
          exact ih (c + 3) (by omega) (by omega) hle3
  intro sp hs0 hsp
  exact H (t.length + 1) sp (by omega) hs0 hsp

/-- The opening line of a labeled fenced block. -/
def segOpen : List Char := "```json\n".data

/-- The glue between two blocks: close fence, blank line, next opener. -/
def segMid : List Char := "\n```\n\n```json\n".data

/-- The closing fence of the final block. -/
def segEnd : List Char := "\n```".data

/-- A raw output holding exactly one labeled fenced block with content `c`. -/
def mkOneBlock (c : List Char) : List Char :=
  segOpen ++ (c ++ segEnd)

/-- A raw output holding exactly two labeled fenced blocks. -/
def mkTwoBlockOutput (b1 b2 : List Char) : List Char :=
  segOpen ++ (b1 ++ (segMid ++ (b2 ++ segEnd)))

/-- The backquote character. -/
def backtick : Char := Char.ofNat 96

/-- No backquote occurs in the text. -/
def noBacktick (t : List Char) : Bool := t.all (fun c => c != backtick)

/-- No backslash occurs in the text (so the escape normalization of the
raw fallback is the identity). -/
def noBackslash (t : List Char) : Bool := t.all (fun c => c != '\\')

/-- Every triple backtick inside the content is immediately followed,
within the content, by a character that the scanner does not treat as
closing whitespace — i.e. each internal fence carries a label, as in an
embedded snippet whose newlines are kept escaped. -/
def labelledFencesOnly (c : List Char) : Bool :=
  (List.range c.length).all fun p =>
    !(subAt c fence3 p) ||
      (match c.get? (p + 3) with
       | some ch => !(closeWs ch)
       | none => false)

theorem getD_eq_get? (t : List Char) (i : Nat) (d : Char) :
    t.getD i d = (t.get? i).getD d := by
  rw [List.getD_eq_getElem?_getD, List.get?_eq_getElem?]

theorem get?_of_drop (t : List Char) (n q : Nat) (h : n ≤ q) :
    t.get? q = (t.drop n).get? (q - n) := by
  rw [List.get?_drop]
  congr 1
  omega

theorem drop_append_exact (a b : List Char) (n : Nat) (h : n = a.length) :
    (a ++ b).drop n = b := by
  subst h
  exact List.drop_left a b

theorem subAt_head (t sub : List Char) (q : Nat) (hs : subAt t sub q = true)
    (c₀ : Char) (h0 : sub.get? 0 = some c₀) : t.get? q = some c₀ := by
  have hlen : 0 < sub.length := by
    cases sub with
    | nil => simp at h0
    | cons a r => simp
  have := subAt_get t sub q 0 hs hlen
  rw [h0] at this
  simpa using this

theorem subAt_false_char (t sub : List Char) (q : Nat) (c₀ ch : Char)
    (h0 : sub.get? 0 = some c₀) (ht : t.get? q = some ch) (hne : ch ≠ c₀) :
    subAt t sub q = false := by
  cases h : subAt t sub q with
  | false => rfl
  | true =>
    have h2 := subAt_head t sub q h c₀ h0
    rw [ht] at h2
    exact absurd (Option.some.inj h2) hne

theorem noBacktick_mem (b : List Char) (h : noBacktick b = true) (c : Char)
    (hc : c ∈ b) : c ≠ backtick := by
  have := List.all_eq_true.mp h c hc
  simpa using this

theorem fence3_get0 : fence3.get? 0 = some backtick := by decide

theorem fenceJson_get0 : fenceJson.get? 0 = some backtick := by decide

/-- A position whose character lies inside a backtick-free block region
holds no fence occurrence. -/
theorem subAt_false_in_block (t b : List Char) (q off : Nat)
    (hb : noBacktick b = true) (hoff : off < b.length)
    (ht : t.get? q = b.get? off) (sub : List Char)
    (h0 : sub.get? 0 = some backtick) : subAt t sub q = false := by
  have hsome : b.get? off = some (b.get ⟨off, hoff⟩) := List.get?_eq_get hoff
  have hmem : b.get ⟨off, hoff⟩ ∈ b := List.get_mem b off hoff
  exact subAt_false_char t sub q backtick (b.get ⟨off, hoff⟩) h0
    (by rw [ht, hsome]) (noBacktick_mem b hb _ hmem)

theorem blocksGo_nil (t : List Char) :
    ∀ fuel i, t.length ≤ i → extractBlocksGo t fuel i = [] := by
  intro fuel i h
  cases fuel with
  | zero => rfl
  | succ n =>
      have hnone : findSub t fenceJson i = none := by
        rw [findSub, findSubGo]
        exact if_neg (by omega)
      rw [extractBlocksGo, hnone]

theorem pyStrip_append_ws (xs : List Char) (c : Char) (h : isPyWs c = true) :
    pyStrip (xs ++ [c]) = pyStrip xs := by
  unfold pyStrip
  rw [List.reverse_append, List.reverse_singleton, List.singleton_append,
    List.dropWhile_cons_of_pos h]

theorem mkOne_length (c : List Char) : (mkOneBlock c).length = c.length + 12 := by
  unfold mkOneBlock
  rw [List.length_append, List.length_append,
    show segOpen.length = 8 from rfl, show segEnd.length = 4 from rfl]
  omega

theorem mkOne_drop8 (c : List Char) : (mkOneBlock c).drop 8 = c ++ segEnd :=
  drop_append_exact segOpen _ 8 rfl

theorem mkOne_get1 (c : List Char) (q : Nat) (h : q < 8) :
    (mkOneBlock c).get? q = segOpen.get? q := by
  unfold mkOneBlock
  exact List.get?_append (by rw [show segOpen.length = 8 from rfl]; omega)

theorem mkOne_get2 (c : List Char) (q : Nat) (h1 : 8 ≤ q)
    (h2 : q < 8 + c.length) : (mkOneBlock c).get? q = c.get? (q - 8) := by
  rw [get?_of_drop _ 8 q h1, mkOne_drop8]
  exact List.get?_append (by omega)

theorem mkOne_get3 (c : List Char) (q : Nat) (h1 : 8 + c.length ≤ q) :
    (mkOneBlock c).get? q = segEnd.get? (q - 8 - c.length) := by
  rw [get?_of_drop _ 8 q (by omega), mkOne_drop8]
  rw [List.get?_append_right (by omega)]

/-- With every internal fence label-opened, the block scanner extracts the
single block whole. -/
theorem extractBlocks_mkOne (c : List Char) (hc : labelledFencesOnly c = true) :
    extractJsonBlocks (mkOneBlock c) = [pyStrip c] := by
  have hlen : (mkOneBlock c).length = c.length + 12 := mkOne_length c
  have hA : findSub (mkOneBlock c) fenceJson 0 = some 0 := by
    apply findSub_complete _ fenceJson (by decide) 0 0 (le_refl 0)
    · apply subAt_of_get
      · have := hlen
        rw [show fenceJson.length = 7 from rfl]
        omega
      · intro j hj
        rw [show fenceJson.length = 7 from rfl] at hj
        rw [Nat.zero_add, mkOne_get1 c j (by omega)]
        interval_cases j <;> rfl
    · intro q h1 h2; omega
  have hB : findSub (mkOneBlock c) ['\n'] 0 = some 7 := by
    apply findSub_complete _ ['\n'] (by decide) 0 7 (by omega)
    · apply subAt_of_get
      · have := hlen
        rw [show (['\n'] : List Char).length = 1 from rfl]
        omega
      · intro j hj
        rw [show (['\n'] : List Char).length = 1 from rfl] at hj
        interval_cases j
        rw [mkOne_get1 c 7 (by omega)]
        decide
    · intro q h1 h2
      cases hq : subAt (mkOneBlock c) ['\n'] q with
      | false => rfl
      | true =>
          exfalso
          have hh := subAt_head _ ['\n'] q hq '\n' rfl
          rw [mkOne_get1 c q (by omega)] at hh
          interval_cases q <;> exact absurd hh (by decide)
  have hoc : subAt (mkOneBlock c) fence3 (c.length + 9) = true := by
    apply subAt_of_get
    · have := hlen
      rw [show fence3.length = 3 from rfl]
      omega
    · intro j hj
      rw [show fence3.length = 3 from rfl] at hj
      rw [mkOne_get3 c (c.length + 9 + j) (by omega),
        show c.length + 9 + j - 8 - c.length = j + 1 from by omega]
      interval_cases j <;> decide
  have hcl : (c.length + 9) + 3 ≥ (mkOneBlock c).length ∨
      closeWs ((mkOneBlock c).getD ((c.length + 9) + 3) ' ') = true := by
    left
    have := hlen
    omega
  have hmd : ∀ q, 8 ≤ q → q < c.length + 9 →
      subAt (mkOneBlock c) fence3 q = true →
      q + 3 ≤ c.length + 9 ∧ q + 3 < (mkOneBlock c).length ∧
        closeWs ((mkOneBlock c).getD (q + 3) ' ') = false := by
    intro q h0 hq hocc2
    by_cases hcase : q + 3 ≤ 8 + c.length
    · have hsubc : subAt c fence3 (q - 8) = true := by
        apply subAt_of_get c fence3 (q - 8)
          (by rw [show fence3.length = 3 from rfl]; omega)
        intro j hj
        rw [show fence3.length = 3 from rfl] at hj
        have e1 : c.get? (q - 8 + j) = (mkOneBlock c).get? (q + j) := by
          rw [mkOne_get2 c (q + j) (by omega) (by omega)]
          congr 1
          omega
        rw [e1]
        exact subAt_get _ fence3 q j hocc2
          (by rw [show fence3.length = 3 from rfl]; omega)
      have hp : q - 8 < c.length := by
        have := subAt_len c fence3 (q - 8) (by decide) hsubc
        rw [show fence3.length = 3 from rfl] at this
        omega
      have hall := List.all_eq_true.mp hc (q - 8) (List.mem_range.mpr hp)
      rw [hsubc] at hall
      simp only [Bool.not_true, Bool.false_or] at hall
      cases hch : c.get? (q - 8 + 3) with
      | none => rw [hch] at hall; simp at hall
      | some ch =>
          rw [hch] at hall
          simp only [Bool.not_eq_true'] at hall
          obtain ⟨hidx, _⟩ := List.get?_eq_some.mp hch
          refine ⟨by omega, by omega, ?_⟩
          rw [getD_eq_get?,
            show (mkOneBlock c).get? (q + 3) = c.get? (q - 8 + 3) from by
              rw [mkOne_get2 c (q + 3) (by omega) (by omega)]; congr 1; omega,
            hch]
          simpa using hall
    · exfalso
      have hstep := subAt_get _ fence3 q (8 + c.length - q) hocc2
        (by rw [show fence3.length = 3 from rfl]; omega)
      rw [show q + (8 + c.length - q) = 8 + c.length from by omega] at hstep
      rw [mkOne_get3 c (8 + c.length) (by omega),
        show 8 + c.length - 8 - c.length = 0 from by omega] at hstep
      obtain ⟨j, hj_eq⟩ : ∃ j, 8 + c.length - q = j := ⟨_, rfl⟩
      have hj3 : j < 3 := by omega
      rw [hj_eq] at hstep
      interval_cases j <;> exact absurd hstep (by decide)
  have hC : scanClose (mkOneBlock c) 8 = some (c.length + 9) :=
    scanClose_reaches (mkOneBlock c) (c.length + 9) 8 hoc hcl hmd 8
      (le_refl 8) (by omega)
  rw [extractJsonBlocks, extractBlocksGo, hA]
  dsimp only
  rw [hB]
  dsimp only
  rw [if_neg (by have := hlen; omega : ¬ 7 + 1 ≥ (mkOneBlock c).length)]
  rw [show (7 : Nat) + 1 = 8 from rfl, hC]
  dsimp only
  rw [mkOne_drop8, show c.length + 9 - 8 = c.length + 1 from by omega]
  rw [List.take_append_eq_append_take, List.take_of_length_le (by omega),
    show c.length + 1 - c.length = 1 from by omega,
    show segEnd.take 1 = ['\n'] from rfl]
  rw [pyStrip_append_ws c '\n' (by decide)]
  rw [blocksGo_nil (mkOneBlock c) _ _ (by have := hlen; omega)]

theorem subAt_false_of_get_ne (t sub : List Char) (q : Nat) (c₀ : Char)
    (h0 : sub.get? 0 = some c₀) (hneq : t.get? q ≠ some c₀) :
    subAt t sub q = false := by
  cases h : subAt t sub q with
  | false => rfl
  | true => exact absurd (subAt_head t sub q h c₀ h0) hneq

theorem mkTwo_length (b1 b2 : List Char) :
    (mkTwoBlockOutput b1 b2).length = b1.length + b2.length + 26 := by
  unfold mkTwoBlockOutput
  rw [List.length_append, List.length_append, List.length_append,
    List.length_append, show segOpen.length = 8 from rfl,
    show segMid.length = 14 from rfl, show segEnd.length = 4 from rfl]
  omega

theorem mkTwo_drop8 (b1 b2 : List Char) :
    (mkTwoBlockOutput b1 b2).drop 8 = b1 ++ (segMid ++ (b2 ++ segEnd)) :=
  drop_append_exact segOpen _ 8 rfl

theorem mkTwo_dropMid (b1 b2 : List Char) :
    (mkTwoBlockOutput b1 b2).drop (8 + b1.length) = segMid ++ (b2 ++ segEnd) := by
  rw [← List.drop_drop, mkTwo_drop8, drop_append_exact b1 _ _ rfl]

theorem mkTwo_dropB2 (b1 b2 : List Char) :
    (mkTwoBlockOutput b1 b2).drop (22 + b1.length) = b2 ++ segEnd := by
  rw [show 22 + b1.length = 8 + b1.length + 14 from by omega, ← List.drop_drop,
    mkTwo_dropMid, drop_append_exact segMid _ 14 rfl]

theorem mkTwo_get1 (b1 b2 : List Char) (q : Nat) (h : q < 8) :
    (mkTwoBlockOutput b1 b2).get? q = segOpen.get? q := by
  unfold mkTwoBlockOutput
  exact List.get?_append (by rw [show segOpen.length = 8 from rfl]; omega)

theorem mkTwo_get2 (b1 b2 : List Char) (q : Nat) (h1 : 8 ≤ q)
    (h2 : q < 8 + b1.length) :
    (mkTwoBlockOutput b1 b2).get? q = b1.get? (q - 8) := by
  rw [get?_of_drop _ 8 q h1, mkTwo_drop8]
  exact List.get?_append (by omega)

theorem mkTwo_get3 (b1 b2 : List Char) (q : Nat) (h1 : 8 + b1.length ≤ q)
    (h2 : q < 22 + b1.length) :
    (mkTwoBlockOutput b1 b2).get? q = segMid.get? (q - 8 - b1.length) := by
  rw [get?_of_drop _ (8 + b1.length) q h1, mkTwo_dropMid]
  rw [List.get?_append (by rw [show segMid.length = 14 from rfl]; omega)]
  congr 1
  omega

theorem mkTwo_get4 (b1 b2 : List Char) (q : Nat) (h1 : 22 + b1.length ≤ q)
    (h2 : q < 22 + b1.length + b2.length) :
    (mkTwoBlockOutput b1 b2).get? q = b2.get? (q - 22 - b1.length) := by
  rw [get?_of_drop _ (22 + b1.length) q h1, mkTwo_dropB2]
  rw [List.get?_append (by omega)]
  congr 1
  omega

theorem mkTwo_get5 (b1 b2 : List Char) (q : Nat)
    (h1 : 22 + b1.length + b2.length ≤ q) :
    (mkTwoBlockOutput b1 b2).get? q = segEnd.get? (q - 22 - b1.length - b2.length) := by
  rw [get?_of_drop _ (22 + b1.length) q (by omega), mkTwo_dropB2]
  rw [List.get?_append_right (by omega)]
  congr 1
  omega

/-- With backquote-free block contents, the block scanner finds exactly
the two blocks, in order. -/
theorem extractBlocks_mkTwo (b1 b2 : List Char)
    (hb1 : noBacktick b1 = true) (hb2 : noBacktick b2 = true) :
    extractJsonBlocks (mkTwoBlockOutput b1 b2) = [pyStrip b1, pyStrip b2] := by
  have hlen : (mkTwoBlockOutput b1 b2).length = b1.length + b2.length + 26 :=
    mkTwo_length b1 b2
  have hA : findSub (mkTwoBlockOutput b1 b2) fenceJson 0 = some 0 := by
    apply findSub_complete _ fenceJson (by decide) 0 0 (le_refl 0)
    · apply subAt_of_get
      · have := hlen
        rw [show fenceJson.length = 7 from rfl]
        omega
      · intro j hj
        rw [show fenceJson.length = 7 from rfl] at hj
        rw [Nat.zero_add, mkTwo_get1 b1 b2 j (by omega)]
        interval_cases j <;> rfl
    · intro q h1 h2; omega
  have hB : findSub (mkTwoBlockOutput b1 b2) ['\n'] 0 = some 7 := by
    apply findSub_complete _ ['\n'] (by decide) 0 7 (by omega)
    · apply subAt_of_get
      · have := hlen
        rw [show (['\n'] : List Char).length = 1 from rfl]
        omega
      · intro j hj
        rw [show (['\n'] : List Char).length = 1 from rfl] at hj
        interval_cases j
        rw [mkTwo_get1 b1 b2 7 (by omega)]
        decide
    · intro q h1 h2
      apply subAt_false_of_get_ne _ ['\n'] q '\n' rfl
      rw [mkTwo_get1 b1 b2 q (by omega)]
      interval_cases q <;> decide
  have hmd1 : ∀ q, 8 ≤ q → q < b1.length + 9 →
      subAt (mkTwoBlockOutput b1 b2) fence3 q = true →
      q + 3 ≤ b1.length + 9 ∧ q + 3 < (mkTwoBlockOutput b1 b2).length ∧
        closeWs ((mkTwoBlockOutput b1 b2).getD (q + 3) ' ') = false := by
    intro q h0 hq hocc2
    exfalso
    by_cases hcase : q < 8 + b1.length
    · have hfalse := subAt_false_of_get_ne (mkTwoBlockOutput b1 b2) fence3 q
        backtick fence3_get0 ?_
      · rw [hocc2] at hfalse; cases hfalse
      · rw [mkTwo_get2 b1 b2 q (by omega) (by omega)]
        intro hcon
        exact noBacktick_mem b1 hb1 backtick (List.get?_mem hcon) rfl
    · have hq8 : q = 8 + b1.length := by omega
      have hfalse := subAt_false_of_get_ne (mkTwoBlockOutput b1 b2) fence3 q
        backtick fence3_get0 ?_
      · rw [hocc2] at hfalse; cases hfalse
      · rw [hq8, mkTwo_get3 b1 b2 (8 + b1.length) (le_refl _) (by omega),
          show 8 + b1.length - 8 - b1.length = 0 from by omega]
        decide
  have hoc1 : subAt (mkTwoBlockOutput b1 b2) fence3 (b1.length + 9) = true := by
    apply subAt_of_get
    · have := hlen
      rw [show fence3.length = 3 from rfl]
      omega
    · intro j hj
      rw [show fence3.length = 3 from rfl] at hj
      rw [mkTwo_get3 b1 b2 (b1.length + 9 + j) (by omega) (by omega),
        show b1.length + 9 + j - 8 - b1.length = j + 1 from by omega]
      interval_cases j <;> decide
  have hcl1 : (b1.length + 9) + 3 ≥ (mkTwoBlockOutput b1 b2).length ∨
      closeWs ((mkTwoBlockOutput b1 b2).getD ((b1.length + 9) + 3) ' ') = true := by
    right
    rw [getD_eq_get?, mkTwo_get3 b1 b2 (b1.length + 9 + 3) (by omega) (by omega),
      show b1.length + 9 + 3 - 8 - b1.length = 4 from by omega]
    decide
  have hC1 : scanClose (mkTwoBlockOutput b1 b2) 8 = some (b1.length + 9) :=
    scanClose_reaches _ (b1.length + 9) 8 hoc1 hcl1 hmd1 8 (le_refl 8) (by omega)
  have hA2 : findSub (mkTwoBlockOutput b1 b2) fenceJson (b1.length + 12)
      = some (b1.length + 14) := by
    apply findSub_complete _ fenceJson (by decide) (b1.length + 12)
      (b1.length + 14) (by omega)
    · apply subAt_of_get
      · have := hlen
        rw [show fenceJson.length = 7 from rfl]
        omega
      · intro j hj
        rw [show fenceJson.length = 7 from rfl] at hj
        rw [mkTwo_get3 b1 b2 (b1.length + 14 + j) (by omega) (by omega),
          show b1.length + 14 + j - 8 - b1.length = 6 + j from by omega]
        interval_cases j <;> decide
    · intro q h1 h2
      apply subAt_false_of_get_ne _ fenceJson q backtick fenceJson_get0
      rw [mkTwo_get3 b1 b2 q (by omega) (by omega)]
      have hj : q - 8 - b1.length = 4 ∨ q - 8 - b1.length = 5 := by omega
      rcases hj with h | h <;> rw [h] <;> decide
  have hB2 : findSub (mkTwoBlockOutput b1 b2) ['\n'] (b1.length + 14)
      = some (b1.length + 21) := by
    apply findSub_complete _ ['\n'] (by decide) (b1.length + 14)
      (b1.length + 21) (by omega)
    · apply subAt_of_get
      · have := hlen
        rw [show (['\n'] : List Char).length = 1 from rfl]
        omega
      · intro j hj
        rw [show (['\n'] : List Char).length = 1 from rfl] at hj
        interval_cases j
        rw [mkTwo_get3 b1 b2 (b1.length + 21) (by omega) (by omega),
          show b1.length + 21 - 8 - b1.length = 13 from by omega]
        decide
    · intro q h1 h2
      apply subAt_false_of_get_ne _ ['\n'] q '\n' rfl
      rw [mkTwo_get3 b1 b2 q (by omega) (by omega)]
      have hj : q - 8 - b1.length = 6 ∨ q - 8 - b1.length = 7 ∨
          q - 8 - b1.length = 8 ∨ q - 8 - b1.length = 9 ∨
          q - 8 - b1.length = 10 ∨ q - 8 - b1.length = 11 ∨
          q - 8 - b1.length = 12 := by omega
      rcases hj with h | h | h | h | h | h | h <;> rw [h] <;> decide
  have hmd2 : ∀ q, 22 + b1.length ≤ q → q < b1.length + b2.length + 23 →
      subAt (mkTwoBlockOutput b1 b2) fence3 q = true →
      q + 3 ≤ b1.length + b2.length + 23 ∧
        q + 3 < (mkTwoBlockOutput b1 b2).length ∧
        closeWs ((mkTwoBlockOutput b1 b2).getD (q + 3) ' ') = false := by
    intro q h0 hq hocc2
    exfalso
    by_cases hcase : q < 22 + b1.length + b2.length
    · have hfalse := subAt_false_of_get_ne (mkTwoBlockOutput b1 b2) fence3 q
        backtick fence3_get0 ?_
      · rw [hocc2] at hfalse; cases hfalse
      · rw [mkTwo_get4 b1 b2 q (by omega) (by omega)]
        intro hcon
        exact noBacktick_mem b2 hb2 backtick (List.get?_mem hcon) rfl
    · have hq8 : q = 22 + b1.length + b2.length := by omega
      have hfalse := subAt_false_of_get_ne (mkTwoBlockOutput b1 b2) fence3 q
        backtick fence3_get0 ?_
      · rw [hocc2] at hfalse; cases hfalse
      · rw [hq8, mkTwo_get5 b1 b2 (22 + b1.length + b2.length) (le_refl _),
          show 22 + b1.length + b2.length - 22 - b1.length - b2.length = 0
            from by omega]
        decide
  have hoc2 : subAt (mkTwoBlockOutput b1 b2) fence3
      (b1.length + b2.length + 23) = true := by
    apply subAt_of_get
    · have := hlen
      rw [show fence3.length = 3 from rfl]
      omega
    · intro j hj
      rw [show fence3.length = 3 from rfl] at hj
      rw [mkTwo_get5 b1 b2 (b1.length + b2.length + 23 + j) (by omega),
        show b1.length + b2.length + 23 + j - 22 - b1.length - b2.length = j + 1
          from by omega]
      interval_cases j <;> decide
  have hcl2 : (b1.length + b2.length + 23) + 3 ≥ (mkTwoBlockOutput b1 b2).length ∨
      closeWs ((mkTwoBlockOutput b1 b2).getD ((b1.length + b2.length + 23) + 3) ' ')
        = true := by
    left
    have := hlen
    omega
  have hC2 : scanClose (mkTwoBlockOutput b1 b2) (b1.length + 22)
      = some (b1.length + b2.length + 23) := by
    apply scanClose_reaches _ (b1.length + b2.length + 23) (22 + b1.length)
      hoc2 hcl2 hmd2 (b1.length + 22) (by omega) (by omega)
  have hF2 : ∀ fuel, extractBlocksGo (mkTwoBlockOutput b1 b2) (fuel + 1)
      (b1.length + 12) = [pyStrip b2] := by
    intro fuel
    rw [extractBlocksGo, hA2]
    dsimp only
    rw [hB2]
    dsimp only
    rw [if_neg (by have := hlen; omega : ¬ b1.length + 21 + 1 ≥ (mkTwoBlockOutput b1 b2).length)]
    rw [show b1.length + 21 + 1 = b1.length + 22 from by omega, hC2]
    dsimp only
    rw [show b1.length + 22 = 22 + b1.length from by omega, mkTwo_dropB2,
      show b1.length + b2.length + 23 - (22 + b1.length) = b2.length + 1 from by omega]
    rw [List.take_append_eq_append_take, List.take_of_length_le (by omega),
      show b2.length + 1 - b2.length = 1 from by omega,
      show segEnd.take 1 = ['\n'] from rfl]
    rw [pyStrip_append_ws b2 '\n' (by decide)]
    rw [blocksGo_nil (mkTwoBlockOutput b1 b2) _ _ (by have := hlen; omega)]
  rw [extractJsonBlocks, extractBlocksGo, hA]
  dsimp only
  rw [hB]
  dsimp only
  rw [if_neg (by have := hlen; omega : ¬ 7 + 1 ≥ (mkTwoBlockOutput b1 b2).length)]
  rw [show (7 : Nat) + 1 = 8 from rfl, hC1]
  dsimp only
  rw [mkTwo_drop8, show b1.length + 9 - 8 = b1.length + 1 from by omega]
  rw [List.take_append_eq_append_take, List.take_of_length_le (by omega),
    show b1.length + 1 - b1.length = 1 from by omega,
    show (segMid ++ (b2 ++ segEnd)).take 1 = ['\n'] from rfl]
  rw [pyStrip_append_ws b1 '\n' (by decide)]
  rw [show b1.length + 9 + 3 = b1.length + 12 from by omega]
  rw [hlen, show b1.length + b2.length + 26 = (b1.length + b2.length + 25) + 1
    from by omega]
  rw [hF2 (b1.length + b2.length + 25)]

/-- C2: for a raw output whose assistant message carries two labeled
fenced blocks as its text, extraction tries the blocks newest-first: when
only the later-emitted block parses to an object with the required field,
`extract_json_from_output` returns exactly that object. -/
theorem extract_returns_newest_block (output f b1 b2 : List Char) (o : Json)
    (hb1 : noBacktick b1 = true) (hb2 : noBacktick b2 = true)
    (hct : collectTexts output = .ok [Json.str (mkTwoBlockOutput b1 b2)])
    (h1 : tryParseJson (pyStrip b1) f = none)
    (h2 : tryParseJson (pyStrip b2) f = some o) :
    extractJsonFromOutput output f = .ok (some o) := by
  rw [extractJsonFromOutput, hct]
  dsimp only
  rw [show ([Json.str (mkTwoBlockOutput b1 b2)] : List Json).reverse
    = [Json.str (mkTwoBlockOutput b1 b2)] from rfl]
  rw [textsLoop]
  rw [extractBlocks_mkTwo b1 b2 hb1 hb2]
  rw [show ([pyStrip b1, pyStrip b2] : List (List Char)).reverse
    = [pyStrip b2, pyStrip b1] from rfl]
  rw [List.findSome?, h2]

set_option maxRecDepth 100000 in
/-- Concrete instance of the newest-first extraction: a stream line whose
assistant text holds two labeled blocks, where only the second block has
the `classification` field. -/
theorem extract_returns_newest_block_witness :
    extractJsonFromOutput
      "\x7b\"type\": \"assistant\", \"message\": \x7b\"content\": [\x7b\"type\": \"text\", \"text\": \"```json\\n\x7b\\\"other\\\": 1\x7d\\n```\\n\\n```json\\n\x7b\\\"classification\\\": \\\"new\\\"\x7d\\n```\"\x7d]\x7d\x7d".data
      "classification".data
      = .ok (some (.obj [("classification".data, .str "new".data)])) :=
  extract_returns_newest_block _ _ "\x7b\"other\": 1\x7d".data
    "\x7b\"classification\": \"new\"\x7d".data _
    (by decide) (by decide) rfl rfl rfl

/-- C3 (amended): a fenced block whose content contains literal triple
backticks is extracted whole provided each internal fence is immediately
followed by a non-whitespace character (a label or closing quote, as in an
embedded snippet with escaped newlines): the scanner does not stop at the
internal fences, and the object parsed from the whole block is returned by
extraction. -/
theorem extract_block_with_labelled_internal_fence (output f c : List Char)
    (o : Json) (hc : labelledFencesOnly c = true)
    (hct : collectTexts output = .ok [Json.str (mkOneBlock c)])
    (hp : tryParseJson (pyStrip c) f = some o) :
    extractJsonBlocks (mkOneBlock c) = [pyStrip c]
    ∧ extractJsonFromOutput output f = .ok (some o) := by
  refine ⟨extractBlocks_mkOne c hc, ?_⟩
  rw [extractJsonFromOutput, hct]
  dsimp only
  rw [show ([Json.str (mkOneBlock c)] : List Json).reverse
    = [Json.str (mkOneBlock c)] from rfl]
  rw [textsLoop]
  rw [extractBlocks_mkOne c hc]
  rw [show ([pyStrip c] : List (List Char)).reverse = [pyStrip c] from rfl]
  rw [List.findSome?, hp]

set_option maxRecDepth 100000 in
/-- Concrete instance: a block whose `code` value embeds a fenced Python
snippet with escaped newlines is extracted whole and parsed. -/
theorem extract_block_with_labelled_internal_fence_witness :
    extractJsonBlocks (mkOneBlock "\x7b\"classification\": \"ok\", \"code\": \"```python\\nx\\n```\"\x7d".data)
      = [pyStrip "\x7b\"classification\": \"ok\", \"code\": \"```python\\nx\\n```\"\x7d".data]
    ∧ extractJsonFromOutput
      "\x7b\"type\": \"assistant\", \"message\": \x7b\"content\": [\x7b\"type\": \"text\", \"text\": \"```json\\n\x7b\\\"classification\\\": \\\"ok\\\", \\\"code\\\": \\\"```python\\\\nx\\\\n```\\\"\x7d\\n```\"\x7d]\x7d\x7d".data
      "classification".data
      = .ok (some (.obj [("classification".data, .str "ok".data),
          ("code".data, .str "```python\nx\n```".data)])) :=
  extract_block_with_labelled_internal_fence _ "classification".data
    "\x7b\"classification\": \"ok\", \"code\": \"```python\\nx\\n```\"\x7d".data
    _ (by decide) rfl rfl
